import Mathlib

set_option linter.unusedVariables false

/-!
Verification of the exec-approval subsystem of the `openclaw` repository.

The Approval Store (`src/gateway/exec-approval-manager.ts`) is embedded
shallowly below: machine integers become `Int`, the JavaScript `Map` becomes
an association list with `Map` semantics (insertion order, in-place update),
`setTimeout` handles become natural-number tokens recorded in an armed-timer
list, and a suspended `Promise` waiter becomes a natural-number waiter
identifier whose resumption is recorded on a `resumed` trace.

The Approval Request Handlers layer (`createExecApprovalHandlers`) is not part
of the sources; it is modelled from the specification where claims need it.
-/

namespace OpenClaw

/-- Decisions are an opaque closed vocabulary owned by the caller
(`allow-once`, `allow-always`, `deny`, ...); the store passes them through. -/
abbrev ExecApprovalDecision := String

/-- `ExecApprovalRequestPayload` from `exec-approval-manager.ts`.
TypeScript `string | null | undefined` optional fields become `Option String`. -/
structure ExecApprovalRequestPayload where
  command : String
  cwd : Option String := none
  host : Option String := none
  security : Option String := none
  ask : Option String := none
  agentId : Option String := none
  resolvedPath : Option String := none
  sessionKey : Option String := none

deriving instance DecidableEq, Repr for ExecApprovalRequestPayload

/-- `ExecApprovalRecord` from `exec-approval-manager.ts`.  `resolvedBy` is
`resolvedBy?: string | null`: absent is `none`, `null` is `some none`. -/
structure ExecApprovalRecord where
  id : String
  request : ExecApprovalRequestPayload
  createdAtMs : Int
  expiresAtMs : Int
  resolvedAtMs : Option Int := none
  decision : Option ExecApprovalDecision := none
  resolvedBy : Option (Option String) := none

deriving instance DecidableEq, Repr for ExecApprovalRecord

/-- `ExecApprovalPendingItem` from `exec-approval-manager.ts`. -/
structure ExecApprovalPendingItem where
  id : String
  command : String
  createdAtMs : Int
  expiresAtMs : Int
  waitingMs : Int
  expiresInMs : Int
  agentId : Option String := none
  cwd : Option String := none
  host : Option String := none
  security : Option String := none
  ask : Option String := none
  resolvedPath : Option String := none
  sessionKey : Option String := none

deriving instance DecidableEq, Repr for ExecApprovalPendingItem

/-- `PendingEntry` from `exec-approval-manager.ts`: the record together with
the suspended waiter (the promise `resolve` continuation, embedded as a waiter
identifier) and the armed `setTimeout` handle (embedded as a token). -/
structure PendingEntry where
  record : ExecApprovalRecord
  waiter : Nat
  timer : Nat

deriving instance DecidableEq, Repr for PendingEntry

/-- The mutable state of one `ExecApprovalManager` instance:
`pending` is the `Map<string, PendingEntry>` (association list in insertion
order), `timers` the armed timeout callbacks `(token, recordId, waiter)`
captured by each `setTimeout` closure, `resumed` the trace of waiter
resumptions (promise settlements) in the order they happened, and `nextToken`
the allocator for fresh timer handles. -/
structure MgrState where
  pending : List (String × PendingEntry)
  timers : List (Nat × String × Nat)
  resumed : List (Nat × Option ExecApprovalDecision)
  nextToken : Nat

deriving instance DecidableEq, Repr for MgrState

/-- `Map.prototype.get` on the pending map. -/
def mapGet (m : List (String × PendingEntry)) (k : String) : Option PendingEntry :=
  (m.find? (fun p => p.1 == k)).map (fun p => p.2)

/-- `Map.prototype.set` on the pending map: updates in place when the key is
present (keeping its position), otherwise appends at the end. -/
def mapSet (m : List (String × PendingEntry)) (k : String) (v : PendingEntry) :
    List (String × PendingEntry) :=
  if m.any (fun p => p.1 == k) then
    m.map (fun p => if p.1 == k then (k, v) else p)
  else
    m ++ [(k, v)]

/-- `Map.prototype.delete` on the pending map. -/
def mapDelete (m : List (String × PendingEntry)) (k : String) :
    List (String × PendingEntry) :=
  m.filter (fun p => p.1 != k)

/-- JavaScript `String.prototype.trim`: strip leading and trailing whitespace
(structural embedding on the character list). -/
def jsTrim (s : String) : String :=
  String.mk (((s.data.dropWhile Char.isWhitespace).reverse.dropWhile
    Char.isWhitespace).reverse)

/-- `normalizeOptionalString` from `exec-approval-manager.ts`: non-strings
(absent/null) and strings that trim to empty become absent; otherwise the
trimmed string is kept. -/
def normalizeOptionalString (value : Option String) : Option String :=
  match value with
  | none => none
  | some s => if jsTrim s == "" then none else some (jsTrim s)

/-- The id actually used by `create`:
`id && id.trim().length > 0 ? id.trim() : randomUUID()`.  The generated UUID
is supplied by the environment as `genId`. -/
def resolvedIdOf (id : Option String) (genId : String) : String :=
  match id with
  | none => genId
  | some i => if i ≠ "" ∧ 0 < (jsTrim i).length then jsTrim i else genId

namespace ExecApprovalManager

/-- `ExecApprovalManager.create`: pure construction of a fresh record.
`now` is `Date.now()` and `genId` the `randomUUID()` draw, both supplied by
the environment.  The manager state is returned unchanged (the method never
touches `this.pending` or any timer). -/
def create (s : MgrState) (now : Int) (genId : String)
    (request : ExecApprovalRequestPayload) (timeoutMs : Int) (id : Option String) :
    ExecApprovalRecord × MgrState :=
  ({ id := resolvedIdOf id genId
     request := request
     createdAtMs := now
     expiresAtMs := now + timeoutMs }, s)

/-- `ExecApprovalManager.waitForDecision`: arms a fresh timer whose callback
captures `record.id` and the waiter, then registers the entry under
`record.id` (a plain `Map.set`, replacing any entry already there).
`timeoutMs` only fixes the real-time delay of the timer and does not affect
the state transition. -/
def waitForDecision (s : MgrState) (record : ExecApprovalRecord)
    (timeoutMs : Int) (waiter : Nat) : MgrState :=
  { pending := mapSet s.pending record.id
      { record := record, waiter := waiter, timer := s.nextToken }
    timers := s.timers ++ [(s.nextToken, record.id, waiter)]
    resumed := s.resumed
    nextToken := s.nextToken + 1 }

/-- `ExecApprovalManager.resolve`: if the id is not pending, returns `false`
without touching anything.  Otherwise it clears the entry's timer, stamps the
record, deletes the entry from the pending map and only then resumes the
waiter with the decision. -/
def resolve (s : MgrState) (recordId : String) (decision : ExecApprovalDecision)
    (resolvedBy : Option String) (now : Int) : MgrState × Bool :=
  match mapGet s.pending recordId with
  | none => (s, false)
  | some e =>
    ({ pending := mapDelete s.pending recordId
       timers := s.timers.filter (fun t => t.1 != e.timer)
       resumed := s.resumed ++ [(e.waiter, some decision)]
       nextToken := s.nextToken }, true)

/-- The finalized record produced by a successful `resolve` (the stamping of
`resolvedAtMs`, `decision` and `resolvedBy` on the shared record object just
before the entry is deleted). -/
def finalizeRecord (r : ExecApprovalRecord) (decision : ExecApprovalDecision)
    (resolvedBy : Option String) (now : Int) : ExecApprovalRecord :=
  { r with resolvedAtMs := some now, decision := some decision,
           resolvedBy := some resolvedBy }

/-- The `setTimeout` callback armed by `waitForDecision` firing: deletes the
captured record id from the pending map and resumes the captured waiter with
`null`.  A cleared or already-fired token does nothing. -/
def fire (s : MgrState) (token : Nat) : MgrState :=
  match s.timers.find? (fun t => t.1 == token) with
  | none => s
  | some t =>
    { pending := mapDelete s.pending t.2.1
      timers := s.timers.filter (fun u => u.1 != token)
      resumed := s.resumed ++ [(t.2.2, none)]
      nextToken := s.nextToken }

/-- `ExecApprovalManager.getSnapshot`. -/
def getSnapshot (s : MgrState) (recordId : String) : Option ExecApprovalRecord :=
  (mapGet s.pending recordId).map (fun e => e.record)

/-- One row of `listPending`: the projection of a pending record at clock
`now` (already clamped). -/
def snapshotItem (record : ExecApprovalRecord) (now : Int) : ExecApprovalPendingItem :=
  { id := record.id
    command := record.request.command
    createdAtMs := record.createdAtMs
    expiresAtMs := record.expiresAtMs
    waitingMs := max 0 (now - record.createdAtMs)
    expiresInMs := max 0 (record.expiresAtMs - now)
    agentId := normalizeOptionalString record.request.agentId
    cwd := normalizeOptionalString record.request.cwd
    host := normalizeOptionalString record.request.host
    security := normalizeOptionalString record.request.security
    ask := normalizeOptionalString record.request.ask
    resolvedPath := normalizeOptionalString record.request.resolvedPath
    sessionKey := normalizeOptionalString record.request.sessionKey }

/-- Lexicographic (code-unit) comparison of two character lists; the
embedding of `localeCompare(...) <= 0`. -/
def lexLeB : List Char → List Char → Bool
  | [], _ => true
  | _ :: _, [] => false
  | a :: as, b :: bs =>
    if a.toNat < b.toNat then true
    else if b.toNat < a.toNat then false
    else lexLeB as bs

/-- The `toSorted` comparator
`a.createdAtMs - b.createdAtMs || a.id.localeCompare(b.id)` as a total
preorder (`localeCompare` embedded as lexicographic string order). -/
def ItemLe (a b : ExecApprovalPendingItem) : Prop :=
  a.createdAtMs < b.createdAtMs ∨
    (a.createdAtMs = b.createdAtMs ∧ lexLeB a.id.data b.id.data = true)

instance itemLeDec : DecidableRel ItemLe := fun a b => by
  unfold ItemLe
  infer_instance

/-- `ExecApprovalManager.listPending`: clamps the caller clock with
`Math.max(0, Math.floor(nowMs))` (flooring is the identity on the `Int`
embedding; an `Int` clock is always finite), projects every pending entry and
stable-sorts by creation time with id as tie-break (`toSorted` is a stable
sort; it is embedded as insertion sort, also stable). -/
def listPending (s : MgrState) (nowMs : Int) : List ExecApprovalPendingItem :=
  let now := max 0 nowMs
  List.insertionSort ItemLe (s.pending.map (fun p => snapshotItem p.2.record now))

end ExecApprovalManager

/-- The empty manager state (`new ExecApprovalManager()`). -/
def initState : MgrState :=
  { pending := [], timers := [], resumed := [], nextToken := 0 }

section Scratch

example :
    (ExecApprovalManager.create initState 100 "uuid-1" { command := "echo" } 2000
      (some "  a  ")).1.id = "a" := by decide

example :
    ExecApprovalManager.listPending
      (ExecApprovalManager.waitForDecision initState
        { id := "a", request := { command := "echo", cwd := some "  " }, createdAtMs := 5,
          expiresAtMs := 25 } 20 0) 11 =
      [{ id := "a", command := "echo", createdAtMs := 5, expiresAtMs := 25,
         waitingMs := 6, expiresInMs := 14 }] := by decide

example :
    (ExecApprovalManager.resolve
      (ExecApprovalManager.waitForDecision initState
        { id := "a", request := { command := "echo" }, createdAtMs := 5,
          expiresAtMs := 25 } 20 0) "a" "deny" none 9).2 = true := by decide

end Scratch

/-! ### Store-level executions

Once a record has been registered by `waitForDecision`, the only things that
can happen to the store (in the embedded fragment) are explicit `resolve`
calls and timer expiries.  A store-level execution is a sequence of such
events applied in some order; the single-threaded JavaScript event loop runs
each of them atomically. -/

/-- One atomic store-level event: an explicit `resolve` call, or the firing
of a `setTimeout` callback (identified by its token). -/
inductive SEv where
  | resolveEv (id : String) (decision : ExecApprovalDecision)
      (resolvedBy : Option String) (now : Int)
  | fireEv (token : Nat)

deriving instance DecidableEq, Repr for SEv

/-- Apply one store-level event. -/
def sstep (s : MgrState) : SEv → MgrState
  | .resolveEv id d rb now => (ExecApprovalManager.resolve s id d rb now).1
  | .fireEv t => ExecApprovalManager.fire s t

/-- Apply a store-level execution (event sequence) left to right. -/
def srun (s : MgrState) (evs : List SEv) : MgrState :=
  evs.foldl sstep s

/-- How many times a given waiter has been resumed. -/
def countResumed (w : Nat) (s : MgrState) : Nat :=
  (s.resumed.filter (fun r => r.1 == w)).length

/-! ### Association-list lemmas for the pending `Map` -/

theorem find?_filter_of_imp {α : Type} (l : List α) (p q : α → Bool)
    (h : ∀ x, p x = true → q x = true) :
    (l.filter q).find? p = l.find? p := by
  induction l with
  | nil => rfl
  | cons a l ih =>
    by_cases hq : q a = true
    · by_cases hp : p a = true
      · simp [List.filter_cons, hq, List.find?, hp]
      · simp [List.filter_cons, hq, List.find?, hp, ih]
    · have hp : p a = false := by
        cases hpa : p a with
        | false => rfl
        | true => exact absurd (h a hpa) hq
      simp [List.filter_cons, hq, List.find?, hp, ih]

theorem mapGet_delete_self (m : List (String × PendingEntry)) (k : String) :
    mapGet (mapDelete m k) k = none := by
  unfold mapGet mapDelete
  rw [List.find?_eq_none.mpr]
  · rfl
  · intro p hp
    have := List.of_mem_filter hp
    simpa using this

theorem mapGet_delete_ne (m : List (String × PendingEntry)) (k k2 : String)
    (h : k ≠ k2) : mapGet (mapDelete m k2) k = mapGet m k := by
  unfold mapGet mapDelete
  rw [find?_filter_of_imp]
  intro x hx
  have hxk : x.1 = k := by simpa using hx
  simp [hxk, h]

theorem find?_map_update (m : List (String × PendingEntry)) (k : String)
    (v : PendingEntry) (h : m.any (fun p => p.1 == k) = true) :
    (m.map (fun p => if p.1 == k then (k, v) else p)).find? (fun p => p.1 == k)
      = some (k, v) := by
  induction m with
  | nil => simp at h
  | cons a l ih =>
    by_cases ha : (a.1 == k) = true
    · simp [List.find?, ha]
    · have ha2 : (a.1 == k) = false := Bool.eq_false_iff.mpr ha
      have hl : l.any (fun p => p.1 == k) = true := by
        simp only [List.any_cons, ha2, Bool.false_or] at h
        exact h
      simp only [List.map_cons, ha2, if_neg, List.find?, Bool.false_eq_true]
      rw [if_neg (by simp [ha2])]
      simp only [List.find?, ha2]
      exact ih hl

theorem find?_append_single (m : List (String × PendingEntry)) (k : String)
    (v : PendingEntry) (h : m.any (fun p => p.1 == k) = false) :
    (m ++ [(k, v)]).find? (fun p => p.1 == k) = some (k, v) := by
  induction m with
  | nil => simp [List.find?]
  | cons a l ih =>
    simp only [List.any_cons, Bool.or_eq_false_iff] at h
    simp only [List.cons_append, List.find?, h.1]
    exact ih h.2

theorem mapGet_set_self (m : List (String × PendingEntry)) (k : String)
    (v : PendingEntry) : mapGet (mapSet m k v) k = some v := by
  unfold mapGet mapSet
  by_cases h : m.any (fun p => p.1 == k) = true
  · rw [if_pos h, find?_map_update m k v h]
    rfl
  · rw [if_neg h, find?_append_single m k v (Bool.eq_false_iff.mpr h)]
    rfl

theorem mapSet_length_of_mem (m : List (String × PendingEntry)) (k : String)
    (v : PendingEntry) (h : m.any (fun p => p.1 == k) = true) :
    (mapSet m k v).length = m.length := by
  unfold mapSet
  rw [if_pos h, List.length_map]

/-! ### C4 and C6: direct properties of `resolve` and `create` -/

/-- C4: `resolve` on an id that is not currently pending returns `false` and
is a complete no-op: the state (pending map, every record in it, and every
armed timer) is returned unchanged and no waiter is resumed. -/
theorem c4_resolve_not_pending_noop (s : MgrState) (id : String)
    (d : ExecApprovalDecision) (rb : Option String) (now : Int)
    (h : mapGet s.pending id = none) :
    ExecApprovalManager.resolve s id d rb now = (s, false) := by
  unfold ExecApprovalManager.resolve
  rw [h]

/-- A sample record used by concrete witnesses. -/
def sampleRecord : ExecApprovalRecord :=
  { id := "a", request := { command := "echo ok" }, createdAtMs := 5, expiresAtMs := 25 }

/-- A sample state with `sampleRecord` pending (waiter 7, timer token 0). -/
def sampleState : MgrState :=
  ExecApprovalManager.waitForDecision initState sampleRecord 20 7

theorem c4_witness :
    mapGet sampleState.pending "b" = none ∧
      ExecApprovalManager.resolve sampleState "b" "deny" none 9 = (sampleState, false) :=
  ⟨by decide, c4_resolve_not_pending_noop sampleState "b" "deny" none 9 (by decide)⟩

theorem string_length_pos_iff (s : String) : 0 < s.length ↔ s ≠ "" := by
  constructor
  · intro h heq
    rw [heq] at h
    exact absurd h (by decide)
  · intro h
    rcases Nat.eq_zero_or_pos s.length with h0 | h0
    · exfalso
      apply h
      cases s with
      | mk data =>
        have hd : data = [] := List.length_eq_zero.mp h0
        rw [hd]
    · exact h0

/-- C6: `create` builds a record stamped `createdAtMs = now` and
`expiresAtMs = now + timeoutMs`, uses the trimmed supplied id exactly when it
is non-empty after trimming and a fresh generated id otherwise, and leaves
the store state (hence the pending set, every timer, and the views
`getSnapshot` / `listPending`) completely unchanged. -/
theorem c6_create_pure_construction (s : MgrState) (now : Int) (genId : String)
    (req : ExecApprovalRequestPayload) (timeoutMs : Int) (idOpt : Option String) :
    (ExecApprovalManager.create s now genId req timeoutMs idOpt).2 = s
    ∧ (ExecApprovalManager.create s now genId req timeoutMs idOpt).1.createdAtMs = now
    ∧ (ExecApprovalManager.create s now genId req timeoutMs idOpt).1.expiresAtMs
        = (ExecApprovalManager.create s now genId req timeoutMs idOpt).1.createdAtMs + timeoutMs
    ∧ (ExecApprovalManager.create s now genId req timeoutMs idOpt).1.request = req
    ∧ (∀ i, idOpt = some i → jsTrim i ≠ "" →
        (ExecApprovalManager.create s now genId req timeoutMs idOpt).1.id = jsTrim i)
    ∧ (∀ i, idOpt = some i → jsTrim i = "" →
        (ExecApprovalManager.create s now genId req timeoutMs idOpt).1.id = genId)
    ∧ (idOpt = none →
        (ExecApprovalManager.create s now genId req timeoutMs idOpt).1.id = genId)
    ∧ (∀ now2, ExecApprovalManager.listPending
        (ExecApprovalManager.create s now genId req timeoutMs idOpt).2 now2
          = ExecApprovalManager.listPending s now2)
    ∧ (∀ k, ExecApprovalManager.getSnapshot
        (ExecApprovalManager.create s now genId req timeoutMs idOpt).2 k
          = ExecApprovalManager.getSnapshot s k) := by
  refine ⟨rfl, rfl, rfl, rfl, ?_, ?_, ?_, fun now2 => rfl, fun k => rfl⟩
  · intro i hi htrim
    subst hi
    have hne : i ≠ "" := by
      intro h0
      apply htrim
      rw [h0]
      rfl
    have hpos : 0 < (jsTrim i).length := (string_length_pos_iff (jsTrim i)).mpr htrim
    simp [ExecApprovalManager.create, resolvedIdOf, hne, hpos]
  · intro i hi htrim
    subst hi
    have hnopos : ¬ (0 < (jsTrim i).length) := by
      intro hpos
      exact (string_length_pos_iff (jsTrim i)).mp hpos htrim
    simp [ExecApprovalManager.create, resolvedIdOf, hnopos]
  · intro hnone
    subst hnone
    rfl

theorem c6_witness :
    (ExecApprovalManager.create sampleState 100 "uuid-1" { command := "c" } 2000
        (some "  id-9 ")).2 = sampleState
    ∧ (ExecApprovalManager.create sampleState 100 "uuid-1" { command := "c" } 2000
        (some "  id-9 ")).1.createdAtMs = 100
    ∧ (ExecApprovalManager.create sampleState 100 "uuid-1" { command := "c" } 2000
        (some "  id-9 ")).1.expiresAtMs
        = (ExecApprovalManager.create sampleState 100 "uuid-1" { command := "c" } 2000
            (some "  id-9 ")).1.createdAtMs + 2000
    ∧ (ExecApprovalManager.create sampleState 100 "uuid-1" { command := "c" } 2000
        (some "  id-9 ")).1.request = { command := "c" }
    ∧ (∀ i, (some "  id-9 " : Option String) = some i → jsTrim i ≠ "" →
        (ExecApprovalManager.create sampleState 100 "uuid-1" { command := "c" } 2000
          (some "  id-9 ")).1.id = jsTrim i)
    ∧ (∀ i, (some "  id-9 " : Option String) = some i → jsTrim i = "" →
        (ExecApprovalManager.create sampleState 100 "uuid-1" { command := "c" } 2000
          (some "  id-9 ")).1.id = "uuid-1")
    ∧ ((some "  id-9 " : Option String) = none →
        (ExecApprovalManager.create sampleState 100 "uuid-1" { command := "c" } 2000
          (some "  id-9 ")).1.id = "uuid-1")
    ∧ (∀ now2, ExecApprovalManager.listPending
        (ExecApprovalManager.create sampleState 100 "uuid-1" { command := "c" } 2000
          (some "  id-9 ")).2 now2 = ExecApprovalManager.listPending sampleState now2)
    ∧ (∀ k, ExecApprovalManager.getSnapshot
        (ExecApprovalManager.create sampleState 100 "uuid-1" { command := "c" } 2000
          (some "  id-9 ")).2 k = ExecApprovalManager.getSnapshot sampleState k) :=
  c6_create_pure_construction sampleState 100 "uuid-1" { command := "c" } 2000
    (some "  id-9 ")

/-! ### Further association-list and counting lemmas -/

theorem mapGet_some_elim (m : List (String × PendingEntry)) (k : String)
    (e : PendingEntry) (h : mapGet m k = some e) :
    ∃ p ∈ m, p.1 = k ∧ p.2 = e := by
  unfold mapGet at h
  cases hf : m.find? (fun p => p.1 == k) with
  | none => rw [hf] at h; cases h
  | some p =>
    rw [hf] at h
    refine ⟨p, List.mem_of_find?_eq_some hf, ?_, ?_⟩
    · have := List.find?_some hf
      simpa using this
    · simpa using h

theorem mapGet_any (m : List (String × PendingEntry)) (k : String)
    (e : PendingEntry) (h : mapGet m k = some e) :
    m.any (fun p => p.1 == k) = true := by
  rcases mapGet_some_elim m k e h with ⟨p, hp, hk, _⟩
  exact List.any_eq_true.mpr ⟨p, hp, by simp [hk]⟩

theorem mapGet_none_iff (m : List (String × PendingEntry)) (k : String) :
    mapGet m k = none ↔ ∀ p ∈ m, (p.1 == k) = false := by
  unfold mapGet
  constructor
  · intro h p hp
    cases hf : m.find? (fun p => p.1 == k) with
    | none => exact Bool.eq_false_iff.mpr (List.find?_eq_none.mp hf p hp)
    | some q => rw [hf] at h; cases h
  · intro h
    rw [List.find?_eq_none.mpr (fun p hp => by simp [h p hp])]
    rfl

theorem mapGet_none_delete (m : List (String × PendingEntry)) (k k2 : String)
    (h : mapGet m k = none) : mapGet (mapDelete m k2) k = none := by
  rw [mapGet_none_iff] at h ⊢
  intro p hp
  exact h p (List.mem_of_mem_filter hp)

theorem find?_token_of_mem_nodup (l : List (Nat × String × Nat))
    (t : Nat × String × Nat) (hmem : t ∈ l)
    (hnodup : (l.map (fun u => u.1)).Nodup) :
    l.find? (fun u => u.1 == t.1) = some t := by
  induction l with
  | nil => cases hmem
  | cons a l ih =>
    rcases List.mem_cons.mp hmem with h | h
    · subst h
      simp [List.find?]
    · have hne : (a.1 == t.1) = false := by
        rw [List.map_cons, List.nodup_cons] at hnodup
        have : t.1 ∈ l.map (fun u => u.1) := List.mem_map.mpr ⟨t, h, rfl⟩
        cases hb : (a.1 == t.1) with
        | false => rfl
        | true =>
          have heq : a.1 = t.1 := by simpa using hb
          exact absurd (by rw [heq]; exact this) hnodup.1
      simp only [List.find?, hne]
      exact ih h (by rw [List.map_cons, List.nodup_cons] at hnodup; exact hnodup.2)

theorem countResumed_state (s2 s : MgrState) (w : Nat)
    (x : Nat × Option ExecApprovalDecision)
    (h : s2.resumed = s.resumed ++ [x]) :
    countResumed w s2 = countResumed w s + (if x.1 = w then 1 else 0) := by
  unfold countResumed
  rw [h, List.filter_append, List.length_append]
  by_cases hx : x.1 = w
  · have hb : (x.1 == w) = true := beq_iff_eq.mpr hx
    simp [List.filter, hb, hx]
  · have hb : (x.1 == w) = false := beq_eq_false_iff_ne.mpr hx
    simp [List.filter, hb, hx]

/-! ### C1 and C3: the pending-entry lifecycle invariant

`Tracked s id e` says the record `id` is currently pending with entry `e`:
its timer is armed, nothing else in the state can resume its waiter or touch
its id, and the waiter has not been resumed.  `Terminated s id e` says the
entry has been finalized (by `resolve` or by expiry): it is out of the
pending map, its timer is disarmed, and the waiter was resumed exactly
once.  Every store-level event maps each status to one of the two, which is
exactly the mutual-exclusion argument of the source: deletion from the
pending map (plus `clearTimeout`) happens before the waiter is resumed, so
the loser of the race finds nothing to act on. -/

def Tracked (s : MgrState) (id : String) (e : PendingEntry) : Prop :=
  mapGet s.pending id = some e
  ∧ (e.timer, id, e.waiter) ∈ s.timers
  ∧ (s.timers.map (fun t => t.1)).Nodup
  ∧ (∀ t ∈ s.timers, t.1 ≠ e.timer → t.2.2 ≠ e.waiter ∧ t.2.1 ≠ id)
  ∧ (∀ p ∈ s.pending, p.1 ≠ id → p.2.waiter ≠ e.waiter ∧ p.2.timer ≠ e.timer)
  ∧ (∀ p ∈ s.pending, p.2.record.id = p.1)
  ∧ countResumed e.waiter s = 0

def Terminated (s : MgrState) (id : String) (e : PendingEntry) : Prop :=
  mapGet s.pending id = none
  ∧ (∀ t ∈ s.timers, t.1 ≠ e.timer ∧ t.2.2 ≠ e.waiter)
  ∧ (∀ p ∈ s.pending, p.2.waiter ≠ e.waiter)
  ∧ (∀ p ∈ s.pending, p.2.record.id = p.1)
  ∧ countResumed e.waiter s = 1

instance trackedDec (s : MgrState) (id : String) (e : PendingEntry) :
    Decidable (Tracked s id e) := by
  unfold Tracked
  infer_instance

/-- Value of `resolve` when the id is pending (the success path of the
source: clear the timer, delete the entry, resume the waiter). -/
theorem resolve_eq_of_found (s : MgrState) (id : String) (e : PendingEntry)
    (d : ExecApprovalDecision) (rb : Option String) (now : Int)
    (h : mapGet s.pending id = some e) :
    ExecApprovalManager.resolve s id d rb now =
      ({ pending := mapDelete s.pending id
         timers := s.timers.filter (fun t => t.1 != e.timer)
         resumed := s.resumed ++ [(e.waiter, some d)]
         nextToken := s.nextToken }, true) := by
  unfold ExecApprovalManager.resolve
  rw [h]

/-- Value of a timer callback firing when its token is still armed. -/
theorem fire_eq_of_found (s : MgrState) (tok : Nat) (t : Nat × String × Nat)
    (h : s.timers.find? (fun u => u.1 == tok) = some t) :
    ExecApprovalManager.fire s tok =
      { pending := mapDelete s.pending t.2.1
        timers := s.timers.filter (fun u => u.1 != tok)
        resumed := s.resumed ++ [(t.2.2, none)]
        nextToken := s.nextToken } := by
  unfold ExecApprovalManager.fire
  rw [h]

/-- A cleared (or never armed, or already fired) token does nothing. -/
theorem fire_eq_of_none (s : MgrState) (tok : Nat)
    (h : s.timers.find? (fun u => u.1 == tok) = none) :
    ExecApprovalManager.fire s tok = s := by
  unfold ExecApprovalManager.fire
  rw [h]

theorem tracked_resolve_self (s : MgrState) (id : String) (e : PendingEntry)
    (h : Tracked s id e) (d : ExecApprovalDecision) (rb : Option String) (now : Int) :
    Terminated (ExecApprovalManager.resolve s id d rb now).1 id e := by
  obtain ⟨hget, hmem, hnodup, htimers, hpending, hkeys, hcount⟩ := h
  rw [resolve_eq_of_found s id e d rb now hget]
  refine ⟨mapGet_delete_self s.pending id, ?_, ?_, ?_, ?_⟩
  · intro t ht
    have ht2 := List.mem_filter.mp ht
    have hne : t.1 ≠ e.timer := by simpa using ht2.2
    exact ⟨hne, (htimers t ht2.1 hne).1⟩
  · intro p hp
    have hp2 := List.mem_filter.mp hp
    have hne : p.1 ≠ id := by simpa using hp2.2
    exact (hpending p hp2.1 hne).1
  · intro p hp
    exact hkeys p (List.mem_of_mem_filter hp)
  · rw [countResumed_state _ s e.waiter (e.waiter, some d) rfl]
    simp [hcount]

theorem tracked_resolve_other (s : MgrState) (id : String) (e : PendingEntry)
    (h : Tracked s id e) (id2 : String) (hne : id2 ≠ id)
    (d : ExecApprovalDecision) (rb : Option String) (now : Int) :
    Tracked (ExecApprovalManager.resolve s id2 d rb now).1 id e := by
  obtain ⟨hget, hmem, hnodup, htimers, hpending, hkeys, hcount⟩ := h
  cases hget2 : mapGet s.pending id2 with
  | none =>
    rw [c4_resolve_not_pending_noop s id2 d rb now hget2]
    exact ⟨hget, hmem, hnodup, htimers, hpending, hkeys, hcount⟩
  | some e2 =>
    rcases mapGet_some_elim s.pending id2 e2 hget2 with ⟨p2, hp2, hp2k, hp2v⟩
    have hother := hpending p2 hp2 (by rw [hp2k]; exact hne)
    have he2w : e2.waiter ≠ e.waiter := by rw [← hp2v]; exact hother.1
    have he2t : e2.timer ≠ e.timer := by rw [← hp2v]; exact hother.2
    rw [resolve_eq_of_found s id2 e2 d rb now hget2]
    refine ⟨?_, ?_, ?_, ?_, ?_, ?_, ?_⟩
    · exact (mapGet_delete_ne s.pending id id2 (fun hx => hne hx.symm)).trans hget
    · exact List.mem_filter.mpr ⟨hmem, by simpa using (Ne.symm he2t)⟩
    · exact List.Nodup.sublist
        (List.Sublist.map _ (List.filter_sublist s.timers)) hnodup
    · intro t ht
      exact htimers t (List.mem_of_mem_filter ht)
    · intro p hp
      exact hpending p (List.mem_of_mem_filter hp)
    · intro p hp
      exact hkeys p (List.mem_of_mem_filter hp)
    · rw [countResumed_state _ s e.waiter (e2.waiter, some d) rfl]
      simp [hcount, he2w]

theorem tracked_fire_self (s : MgrState) (id : String) (e : PendingEntry)
    (h : Tracked s id e) :
    Terminated (ExecApprovalManager.fire s e.timer) id e := by
  obtain ⟨hget, hmem, hnodup, htimers, hpending, hkeys, hcount⟩ := h
  have hfind : s.timers.find? (fun u => u.1 == e.timer) = some (e.timer, id, e.waiter) :=
    find?_token_of_mem_nodup s.timers (e.timer, id, e.waiter) hmem hnodup
  rw [fire_eq_of_found s e.timer (e.timer, id, e.waiter) hfind]
  refine ⟨mapGet_delete_self s.pending id, ?_, ?_, ?_, ?_⟩
  · intro t ht
    have ht2 := List.mem_filter.mp ht
    have hne : t.1 ≠ e.timer := by simpa using ht2.2
    exact ⟨hne, (htimers t ht2.1 hne).1⟩
  · intro p hp
    have hp2 := List.mem_filter.mp hp
    have hne : p.1 ≠ id := by simpa using hp2.2
    exact (hpending p hp2.1 hne).1
  · intro p hp
    exact hkeys p (List.mem_of_mem_filter hp)
  · rw [countResumed_state _ s e.waiter (e.waiter, none) rfl]
    simp [hcount]

theorem tracked_fire_other (s : MgrState) (id : String) (e : PendingEntry)
    (h : Tracked s id e) (tok : Nat) (hne : tok ≠ e.timer) :
    Tracked (ExecApprovalManager.fire s tok) id e := by
  obtain ⟨hget, hmem, hnodup, htimers, hpending, hkeys, hcount⟩ := h
  cases hfind : s.timers.find? (fun u => u.1 == tok) with
  | none =>
    rw [fire_eq_of_none s tok hfind]
    exact ⟨hget, hmem, hnodup, htimers, hpending, hkeys, hcount⟩
  | some t =>
    have htmem : t ∈ s.timers := List.mem_of_find?_eq_some hfind
    have httok : t.1 = tok := by
      have := List.find?_some hfind
      simpa using this
    have hnet : t.1 ≠ e.timer := by rw [httok]; exact hne
    have hfacts := htimers t htmem hnet
    rw [fire_eq_of_found s tok t hfind]
    refine ⟨?_, ?_, ?_, ?_, ?_, ?_, ?_⟩
    · exact (mapGet_delete_ne s.pending id t.2.1 (fun hx => hfacts.2 hx.symm)).trans hget
    · refine List.mem_filter.mpr ⟨hmem, ?_⟩
      simpa using (fun hx => hne (by rw [← hx]))
    · exact List.Nodup.sublist
        (List.Sublist.map _ (List.filter_sublist s.timers)) hnodup
    · intro u hu
      exact htimers u (List.mem_of_mem_filter hu)
    · intro p hp
      exact hpending p (List.mem_of_mem_filter hp)
    · intro p hp
      exact hkeys p (List.mem_of_mem_filter hp)
    · rw [countResumed_state _ s e.waiter (t.2.2, none) rfl]
      simp [hcount, hfacts.1]

theorem terminated_sstep (s : MgrState) (id : String) (e : PendingEntry)
    (h : Terminated s id e) (ev : SEv) :
    Terminated (sstep s ev) id e := by
  obtain ⟨hget, htimers, hpending, hkeys, hcount⟩ := h
  cases ev with
  | resolveEv id2 d rb now =>
    show Terminated (ExecApprovalManager.resolve s id2 d rb now).1 id e
    cases hget2 : mapGet s.pending id2 with
    | none =>
      rw [c4_resolve_not_pending_noop s id2 d rb now hget2]
      exact ⟨hget, htimers, hpending, hkeys, hcount⟩
    | some e2 =>
      rcases mapGet_some_elim s.pending id2 e2 hget2 with ⟨p2, hp2, hp2k, hp2v⟩
      have he2w : e2.waiter ≠ e.waiter := by rw [← hp2v]; exact hpending p2 hp2
      rw [resolve_eq_of_found s id2 e2 d rb now hget2]
      refine ⟨mapGet_none_delete s.pending id id2 hget, ?_, ?_, ?_, ?_⟩
      · intro t ht
        exact htimers t (List.mem_of_mem_filter ht)
      · intro p hp
        exact hpending p (List.mem_of_mem_filter hp)
      · intro p hp
        exact hkeys p (List.mem_of_mem_filter hp)
      · rw [countResumed_state _ s e.waiter (e2.waiter, some d) rfl]
        simp [hcount, he2w]
  | fireEv tok =>
    show Terminated (ExecApprovalManager.fire s tok) id e
    cases hfind : s.timers.find? (fun u => u.1 == tok) with
    | none =>
      rw [fire_eq_of_none s tok hfind]
      exact ⟨hget, htimers, hpending, hkeys, hcount⟩
    | some t =>
      have htmem : t ∈ s.timers := List.mem_of_find?_eq_some hfind
      have hfacts := htimers t htmem
      rw [fire_eq_of_found s tok t hfind]
      refine ⟨mapGet_none_delete s.pending id t.2.1 hget, ?_, ?_, ?_, ?_⟩
      · intro u hu
        exact htimers u (List.mem_of_mem_filter hu)
      · intro p hp
        exact hpending p (List.mem_of_mem_filter hp)
      · intro p hp
        exact hkeys p (List.mem_of_mem_filter hp)
      · rw [countResumed_state _ s e.waiter (t.2.2, none) rfl]
        simp [hcount, hfacts.2]

theorem lifecycle_sstep (s : MgrState) (id : String) (e : PendingEntry)
    (h : Tracked s id e ∨ Terminated s id e) (ev : SEv) :
    Tracked (sstep s ev) id e ∨ Terminated (sstep s ev) id e := by
  rcases h with h | h
  · cases ev with
    | resolveEv id2 d rb now =>
      by_cases hid : id2 = id
      · subst hid
        exact Or.inr (tracked_resolve_self s id2 e h d rb now)
      · exact Or.inl (tracked_resolve_other s id e h id2 hid d rb now)
    | fireEv tok =>
      by_cases htok : tok = e.timer
      · subst htok
        exact Or.inr (tracked_fire_self s id e h)
      · exact Or.inl (tracked_fire_other s id e h tok htok)
  · exact Or.inr (terminated_sstep s id e h ev)

theorem lifecycle_srun (s : MgrState) (id : String) (e : PendingEntry)
    (h : Tracked s id e ∨ Terminated s id e) (evs : List SEv) :
    Tracked (srun s evs) id e ∨ Terminated (srun s evs) id e := by
  induction evs generalizing s with
  | nil => exact h
  | cons ev evs ih => exact ih (sstep s ev) (lifecycle_sstep s id e h ev)

/-- C1: for a pending entry, resolution and timer expiry are mutually
exclusive across every store-level execution: the waiter is resumed at most
once; while the entry is still in the pending map it has not been resumed;
once the entry has left the pending map (the terminal event happened, with
removal before resumption) the waiter has been resumed exactly once, and
from then on `resolve` for that id returns `false` and the entry's timer can
no longer fire (its callback token is gone, so firing it is a no-op). -/
theorem c1_resolution_expiry_exclusive (s : MgrState) (id : String)
    (e : PendingEntry) (h : Tracked s id e) (evs : List SEv) :
    countResumed e.waiter (srun s evs) ≤ 1
    ∧ (mapGet (srun s evs).pending id = some e →
        countResumed e.waiter (srun s evs) = 0)
    ∧ (mapGet (srun s evs).pending id = none →
        countResumed e.waiter (srun s evs) = 1)
    ∧ (countResumed e.waiter (srun s evs) = 1 →
        (∀ d rb now, (ExecApprovalManager.resolve (srun s evs) id d rb now).2 = false)
        ∧ ExecApprovalManager.fire (srun s evs) e.timer = srun s evs) := by
  rcases lifecycle_srun s id e (Or.inl h) evs with hT | hT
  · obtain ⟨hget, hmem, hnodup, htimers, hpending, hkeys, hcount⟩ := hT
    refine ⟨by rw [hcount]; omega, fun _ => hcount, ?_, ?_⟩
    · intro h2
      rw [hget] at h2
      cases h2
    · intro h1
      rw [hcount] at h1
      cases h1
  · obtain ⟨hget, htimers, hpending, hkeys, hcount⟩ := hT
    refine ⟨by rw [hcount], ?_, fun _ => hcount, ?_⟩
    · intro h2
      rw [hget] at h2
      cases h2
    · intro h1
      constructor
      · intro d rb now
        rw [c4_resolve_not_pending_noop (srun s evs) id d rb now hget]
      · apply fire_eq_of_none
        apply List.find?_eq_none.mpr
        intro t ht
        simp [(htimers t ht).1]

/-- Registering a record with `waitForDecision` from a state that does not
yet know its id, its fresh waiter, or its fresh timer token establishes the
`Tracked` invariant for the new entry. -/
theorem tracked_waitForDecision (s : MgrState) (record : ExecApprovalRecord)
    (timeoutMs : Int) (wtr : Nat)
    (hget : mapGet s.pending record.id = none)
    (hnodup : (s.timers.map (fun t => t.1)).Nodup)
    (htokfresh : ∀ t ∈ s.timers, t.1 < s.nextToken)
    (htw : ∀ t ∈ s.timers, t.2.2 ≠ wtr ∧ t.2.1 ≠ record.id)
    (hpw : ∀ p ∈ s.pending, p.2.waiter ≠ wtr)
    (hpt : ∀ p ∈ s.pending, p.2.timer < s.nextToken)
    (hkeys : ∀ p ∈ s.pending, p.2.record.id = p.1)
    (hcount : countResumed wtr s = 0) :
    Tracked (ExecApprovalManager.waitForDecision s record timeoutMs wtr) record.id
      { record := record, waiter := wtr, timer := s.nextToken } := by
  have hany : s.pending.any (fun p => p.1 == record.id) = false := by
    rw [List.any_eq_false]
    intro p hp
    simpa using (mapGet_none_iff s.pending record.id).mp hget p hp
  have hpend2 : (ExecApprovalManager.waitForDecision s record timeoutMs wtr).pending
      = s.pending ++ [(record.id,
          { record := record, waiter := wtr, timer := s.nextToken })] := by
    show mapSet s.pending record.id _ = _
    unfold mapSet
    rw [if_neg (by rw [hany]; exact Bool.false_ne_true)]
  refine ⟨?_, ?_, ?_, ?_, ?_, ?_, hcount⟩
  · exact mapGet_set_self s.pending record.id _
  · exact List.mem_append_right _ (by simp)
  · show ((s.timers ++ [(s.nextToken, record.id, wtr)]).map (fun t => t.1)).Nodup
    rw [List.map_append]
    refine List.Nodup.append hnodup (by simp) ?_
    intro a ha hb
    rcases List.mem_map.mp ha with ⟨t, ht, rfl⟩
    have hlt := htokfresh t ht
    have hba : t.1 = s.nextToken := by simpa using hb
    omega
  · intro t ht hne
    rcases List.mem_append.mp ht with hm | hs
    · exact htw t hm
    · exfalso
      apply hne
      have ht2 : t = (s.nextToken, record.id, wtr) := List.mem_singleton.mp hs
      rw [ht2]
  · intro p hp hne
    rw [hpend2] at hp
    rcases List.mem_append.mp hp with hm | hs
    · refine ⟨hpw p hm, ?_⟩
      show p.2.timer ≠ s.nextToken
      have := hpt p hm
      omega
    · exfalso
      have hp2 : p = (record.id,
          { record := record, waiter := wtr, timer := s.nextToken }) :=
        List.mem_singleton.mp hs
      exact hne (by rw [hp2])
  · intro p hp
    rw [hpend2] at hp
    rcases List.mem_append.mp hp with hm | hs
    · exact hkeys p hm
    · have hp2 : p = (record.id,
          { record := record, waiter := wtr, timer := s.nextToken }) :=
        List.mem_singleton.mp hs
      rw [hp2]

/-- The tracked pending entry of `sampleState`. -/
def sampleEntry : PendingEntry :=
  { record := sampleRecord, waiter := 7, timer := 0 }

/-- A concrete store-level execution: one successful resolve. -/
def c1evs : List SEv :=
  [SEv.resolveEv "a" "allow-once" none 9]

theorem c1_witness :
    Tracked sampleState "a" sampleEntry
    ∧ (countResumed sampleEntry.waiter (srun sampleState c1evs) ≤ 1
      ∧ (mapGet (srun sampleState c1evs).pending "a" = some sampleEntry →
          countResumed sampleEntry.waiter (srun sampleState c1evs) = 0)
      ∧ (mapGet (srun sampleState c1evs).pending "a" = none →
          countResumed sampleEntry.waiter (srun sampleState c1evs) = 1)
      ∧ (countResumed sampleEntry.waiter (srun sampleState c1evs) = 1 →
          (∀ d rb now,
            (ExecApprovalManager.resolve (srun sampleState c1evs) "a" d rb now).2 = false)
          ∧ ExecApprovalManager.fire (srun sampleState c1evs) sampleEntry.timer
              = srun sampleState c1evs)) :=
  ⟨by decide,
    c1_resolution_expiry_exclusive sampleState "a" sampleEntry (by decide) c1evs⟩

/-- Does a store-level event interact with the tracked id or its timer? -/
def touchesEntry (ev : SEv) (id : String) (tok : Nat) : Prop :=
  match ev with
  | .resolveEv i _ _ _ => i = id
  | .fireEv t => t = tok

instance touchesEntryDec (ev : SEv) (id : String) (tok : Nat) :
    Decidable (touchesEntry ev id tok) := by
  cases ev <;> (dsimp [touchesEntry]; infer_instance)

theorem tracked_srun_untouched (s : MgrState) (id : String) (e : PendingEntry)
    (h : Tracked s id e) (evs : List SEv)
    (hno : ∀ ev ∈ evs, ¬ touchesEntry ev id e.timer) :
    Tracked (srun s evs) id e := by
  induction evs generalizing s with
  | nil => exact h
  | cons ev evs ih =>
    have h1 : Tracked (sstep s ev) id e := by
      cases ev with
      | resolveEv id2 d rb now =>
        have hne : id2 ≠ id := fun hx =>
          hno (SEv.resolveEv id2 d rb now) (List.mem_cons_self _ _) hx
        exact tracked_resolve_other s id e h id2 hne d rb now
      | fireEv tok =>
        have hne : tok ≠ e.timer := fun hx =>
          hno (SEv.fireEv tok) (List.mem_cons_self _ _) hx
        exact tracked_fire_other s id e h tok hne
    exact ih (sstep s ev) h1 (fun ev2 hev2 => hno ev2 (List.mem_cons_of_mem _ hev2))

/-- C3: if no resolve for the tracked id (and no firing of its timer) occurs
during the wait, the entry is still pending, and the timer firing then
removes it from the pending map — it disappears from the `listPending`
view — and resumes the suspended waiter with `null` (the implicit
no-decision outcome), exactly once. -/
theorem c3_timer_expiry_removes_and_resumes_null (s : MgrState) (id : String)
    (e : PendingEntry) (h : Tracked s id e) (evs : List SEv)
    (hno : ∀ ev ∈ evs, ¬ touchesEntry ev id e.timer) :
    mapGet (ExecApprovalManager.fire (srun s evs) e.timer).pending id = none
    ∧ (∀ nowMs item,
        item ∈ ExecApprovalManager.listPending
          (ExecApprovalManager.fire (srun s evs) e.timer) nowMs → item.id ≠ id)
    ∧ (ExecApprovalManager.fire (srun s evs) e.timer).resumed
        = (srun s evs).resumed ++ [(e.waiter, none)]
    ∧ countResumed e.waiter (ExecApprovalManager.fire (srun s evs) e.timer) = 1 := by
  obtain ⟨hget, hmem, hnodup, htimers, hpending, hkeys, hcount⟩ :=
    tracked_srun_untouched s id e h evs hno
  have hfind := find?_token_of_mem_nodup _ (e.timer, id, e.waiter) hmem hnodup
  rw [fire_eq_of_found _ e.timer _ hfind]
  refine ⟨mapGet_delete_self _ id, ?_, rfl, ?_⟩
  · intro nowMs item hitem
    simp only [ExecApprovalManager.listPending] at hitem
    have hmem2 : item ∈ (mapDelete (srun s evs).pending id).map
        (fun p => ExecApprovalManager.snapshotItem p.2.record (max 0 nowMs)) :=
      ((List.perm_insertionSort ExecApprovalManager.ItemLe _).mem_iff).mp hitem
    rcases List.mem_map.mp hmem2 with ⟨p, hp, hpe⟩
    have hpne : p.1 ≠ id := by
      have h2 := List.mem_filter.mp hp
      simpa using h2.2
    have hkey : p.2.record.id = p.1 := hkeys p (List.mem_of_mem_filter hp)
    rw [← hpe]
    show p.2.record.id ≠ id
    rw [hkey]
    exact hpne
  · rw [countResumed_state _ (srun s evs) e.waiter (e.waiter, none) rfl]
    simp [hcount]

/-- A concrete execution that does not touch the tracked id: a resolve of an
unrelated id and the firing of an unrelated (unarmed) timer token. -/
def c3evs : List SEv :=
  [SEv.resolveEv "other" "deny" none 6, SEv.fireEv 42]

theorem c3_witness :
    Tracked sampleState "a" sampleEntry
    ∧ (∀ ev ∈ c3evs, ¬ touchesEntry ev "a" sampleEntry.timer)
    ∧ (mapGet (ExecApprovalManager.fire (srun sampleState c3evs)
          sampleEntry.timer).pending "a" = none
      ∧ (∀ nowMs item,
          item ∈ ExecApprovalManager.listPending
            (ExecApprovalManager.fire (srun sampleState c3evs) sampleEntry.timer) nowMs →
            item.id ≠ "a")
      ∧ (ExecApprovalManager.fire (srun sampleState c3evs) sampleEntry.timer).resumed
          = (srun sampleState c3evs).resumed ++ [(sampleEntry.waiter, none)]
      ∧ countResumed sampleEntry.waiter
          (ExecApprovalManager.fire (srun sampleState c3evs) sampleEntry.timer) = 1) :=
  ⟨by decide, by decide,
    c3_timer_expiry_removes_and_resumes_null sampleState "a" sampleEntry (by decide)
      c3evs (by decide)⟩

/-- C10: `waitForDecision` performs no duplicate-id check.  Registering a
second record under an id that is already pending silently replaces the
existing entry (the pending map does not grow), after which `resolve` for
that id resumes only the second waiter, while the first entry's timer is
still armed and its firing resumes the first waiter with `null`. -/
theorem c10_waitForDecision_replaces_duplicate (s : MgrState) (id : String)
    (e1 : PendingEntry) (record2 : ExecApprovalRecord) (timeoutMs : Int) (w2 : Nat)
    (h1 : mapGet s.pending id = some e1)
    (hid : record2.id = id)
    (htimer : (e1.timer, id, e1.waiter) ∈ s.timers)
    (hnodup : (s.timers.map (fun t => t.1)).Nodup)
    (hfresh : ∀ t ∈ s.timers, t.1 < s.nextToken) :
    (ExecApprovalManager.waitForDecision s record2 timeoutMs w2).pending.length
        = s.pending.length
    ∧ mapGet (ExecApprovalManager.waitForDecision s record2 timeoutMs w2).pending id
        = some { record := record2, waiter := w2, timer := s.nextToken }
    ∧ (e1.timer, id, e1.waiter)
        ∈ (ExecApprovalManager.waitForDecision s record2 timeoutMs w2).timers
    ∧ (∀ d rb now,
        (ExecApprovalManager.resolve
          (ExecApprovalManager.waitForDecision s record2 timeoutMs w2) id d rb now).2 = true
        ∧ (ExecApprovalManager.resolve
            (ExecApprovalManager.waitForDecision s record2 timeoutMs w2) id d rb now).1.resumed
          = s.resumed ++ [(w2, some d)])
    ∧ (ExecApprovalManager.fire
        (ExecApprovalManager.waitForDecision s record2 timeoutMs w2) e1.timer).resumed
        = s.resumed ++ [(e1.waiter, none)] := by
  have hany : s.pending.any (fun p => p.1 == id) = true := mapGet_any s.pending id e1 h1
  have hget2 : mapGet (ExecApprovalManager.waitForDecision s record2 timeoutMs w2).pending id
      = some { record := record2, waiter := w2, timer := s.nextToken } := by
    show mapGet (mapSet s.pending record2.id
      { record := record2, waiter := w2, timer := s.nextToken }) id = _
    rw [hid]
    exact mapGet_set_self s.pending id _
  refine ⟨?_, hget2, ?_, ?_, ?_⟩
  · show (mapSet s.pending record2.id _).length = s.pending.length
    rw [hid]
    exact mapSet_length_of_mem s.pending id _ hany
  · exact List.mem_append_left _ htimer
  · intro d rb now
    rw [resolve_eq_of_found _ id _ d rb now hget2]
    exact ⟨rfl, rfl⟩
  · have hnodup2 : (((ExecApprovalManager.waitForDecision s record2 timeoutMs w2).timers).map
        (fun t => t.1)).Nodup := by
      show ((s.timers ++ [(s.nextToken, record2.id, w2)]).map (fun t => t.1)).Nodup
      rw [List.map_append]
      refine List.Nodup.append hnodup (by simp) ?_
      intro a ha hb
      rcases List.mem_map.mp ha with ⟨t, ht, rfl⟩
      have hlt := hfresh t ht
      have : t.1 = s.nextToken := by simpa using hb
      omega
    have hfind := find?_token_of_mem_nodup _ (e1.timer, id, e1.waiter)
      (List.mem_append_left _ htimer) hnodup2
    rw [fire_eq_of_found _ e1.timer _ hfind]
    rfl

/-- A second record reusing the already-pending id of `sampleState`. -/
def dupRecord : ExecApprovalRecord :=
  { id := "a", request := { command := "echo again" }, createdAtMs := 8, expiresAtMs := 30 }

/-! ### C5: the `listPending` view -/

namespace ExecApprovalManager

theorem lexLeB_total : ∀ as bs : List Char,
    lexLeB as bs = true ∨ lexLeB bs as = true := by
  intro as
  induction as with
  | nil => intro bs; exact Or.inl rfl
  | cons a as ih =>
    intro bs
    cases bs with
    | nil => exact Or.inr rfl
    | cons b bs =>
      by_cases h1 : a.toNat < b.toNat
      · left; simp [lexLeB, h1]
      · by_cases h2 : b.toNat < a.toNat
        · right; simp [lexLeB, h2]
        · rcases ih bs with h | h
          · left; simp [lexLeB, h1, h2, h]
          · right; simp [lexLeB, h1, h2, h]

theorem lexLeB_trans : ∀ as bs cs : List Char,
    lexLeB as bs = true → lexLeB bs cs = true → lexLeB as cs = true := by
  intro as
  induction as with
  | nil => intro bs cs _ _; rfl
  | cons a as ih =>
    intro bs cs h1 h2
    cases bs with
    | nil => simp [lexLeB] at h1
    | cons b bs =>
      cases cs with
      | nil => simp [lexLeB] at h2
      | cons c cs =>
        simp only [lexLeB] at h1 h2 ⊢
        by_cases hab : a.toNat < b.toNat
        · by_cases hbc : b.toNat < c.toNat
          · simp [Nat.lt_trans hab hbc]
          · by_cases hcb : c.toNat < b.toNat
            · simp [lexLeB, hbc, hcb] at h2
            · have hsame : b.toNat = c.toNat :=
                Nat.le_antisymm (Nat.le_of_not_lt hcb) (Nat.le_of_not_lt hbc)
              simp [hsame ▸ hab]
        · by_cases hba : b.toNat < a.toNat
          · simp [hab, hba] at h1
          · have hab2 : a.toNat = b.toNat :=
              Nat.le_antisymm (Nat.le_of_not_lt hba) (Nat.le_of_not_lt hab)
            simp [hab, hba] at h1
            by_cases hbc : b.toNat < c.toNat
            · simp [hab2 ▸ hbc]
            · by_cases hcb : c.toNat < b.toNat
              · simp [hbc, hcb] at h2
              · simp [hbc, hcb] at h2
                have hbc2 : b.toNat = c.toNat :=
                  Nat.le_antisymm (Nat.le_of_not_lt hcb) (Nat.le_of_not_lt hbc)
                simp [hab2, hbc2, ih bs cs h1 h2]

instance itemLeTotal : IsTotal ExecApprovalPendingItem ItemLe := by
  constructor
  intro a b
  rcases Int.lt_trichotomy a.createdAtMs b.createdAtMs with h | h | h
  · exact Or.inl (Or.inl h)
  · rcases lexLeB_total a.id.data b.id.data with h2 | h2
    · exact Or.inl (Or.inr ⟨h, h2⟩)
    · exact Or.inr (Or.inr ⟨h.symm, h2⟩)
  · exact Or.inr (Or.inl h)

instance itemLeTrans : IsTrans ExecApprovalPendingItem ItemLe := by
  constructor
  intro a b c hab hbc
  rcases hab with h | ⟨h1, h2⟩
  · rcases hbc with h3 | ⟨h3, h4⟩
    · exact Or.inl (h.trans h3)
    · exact Or.inl (h3 ▸ h)
  · rcases hbc with h3 | ⟨h3, h4⟩
    · exact Or.inl (h1 ▸ h3)
    · exact Or.inr ⟨h1.trans h3, lexLeB_trans _ _ _ h2 h4⟩

end ExecApprovalManager

/-- C5 counterexample input: calling `listPending` with the (unsanitized)
clock `-1` on a state whose single pending record expires at 25.  The code
clamps the clock to 0 and reports `expiresInMs = 25`, whereas the claimed
formula `max 0 (expiresAtMs - now)` gives 26. -/
theorem c5_counterexample :
    (ExecApprovalManager.listPending sampleState (-1)).head? =
      some { id := "a", command := "echo ok", createdAtMs := 5, expiresAtMs := 25,
             waitingMs := 0, expiresInMs := 25 }
    ∧ (25 : Int) ≠ max 0 (25 - (-1)) := by
  constructor
  · decide
  · decide

/-- C5 (amended): `listPending` first sanitizes the clock to
`now' = max 0 nowMs`; it then returns exactly one snapshot per pending
record, with `waitingMs = max 0 (now' - createdAtMs)`,
`expiresInMs = max 0 (expiresAtMs - now')`, and every optional string field
normalized (empty / whitespace-only become absent); the output is sorted by
`createdAtMs` ascending with lexicographic id as tie-break, and two calls
with the same state and clock return identical output. -/
theorem c5_listPending_snapshot_view (s : MgrState) (nowMs : Int) :
    (ExecApprovalManager.listPending s nowMs).Perm
        (s.pending.map (fun p => ExecApprovalManager.snapshotItem p.2.record (max 0 nowMs)))
    ∧ (∀ item ∈ ExecApprovalManager.listPending s nowMs,
        ∃ p ∈ s.pending,
          item.id = p.2.record.id
          ∧ item.command = p.2.record.request.command
          ∧ item.createdAtMs = p.2.record.createdAtMs
          ∧ item.expiresAtMs = p.2.record.expiresAtMs
          ∧ item.waitingMs = max 0 (max 0 nowMs - p.2.record.createdAtMs)
          ∧ item.expiresInMs = max 0 (p.2.record.expiresAtMs - max 0 nowMs)
          ∧ item.agentId = normalizeOptionalString p.2.record.request.agentId
          ∧ item.cwd = normalizeOptionalString p.2.record.request.cwd
          ∧ item.host = normalizeOptionalString p.2.record.request.host
          ∧ item.security = normalizeOptionalString p.2.record.request.security
          ∧ item.ask = normalizeOptionalString p.2.record.request.ask
          ∧ item.resolvedPath = normalizeOptionalString p.2.record.request.resolvedPath
          ∧ item.sessionKey = normalizeOptionalString p.2.record.request.sessionKey)
    ∧ (ExecApprovalManager.listPending s nowMs).Pairwise ExecApprovalManager.ItemLe
    ∧ ExecApprovalManager.listPending s nowMs = ExecApprovalManager.listPending s nowMs := by
  refine ⟨?_, ?_, ?_, rfl⟩
  · exact List.perm_insertionSort ExecApprovalManager.ItemLe _
  · intro item hitem
    have hmem2 : item ∈ s.pending.map
        (fun p => ExecApprovalManager.snapshotItem p.2.record (max 0 nowMs)) :=
      ((List.perm_insertionSort ExecApprovalManager.ItemLe _).mem_iff).mp hitem
    rcases List.mem_map.mp hmem2 with ⟨p, hp, hpe⟩
    refine ⟨p, hp, ?_⟩
    rw [← hpe]
    exact ⟨rfl, rfl, rfl, rfl, rfl, rfl, rfl, rfl, rfl, rfl, rfl, rfl, rfl⟩
  · exact List.sorted_insertionSort ExecApprovalManager.ItemLe _

theorem c10_witness :
    mapGet sampleState.pending "a" = some sampleEntry
    ∧ ((ExecApprovalManager.waitForDecision sampleState dupRecord 22 9).pending.length
        = sampleState.pending.length
      ∧ mapGet (ExecApprovalManager.waitForDecision sampleState dupRecord 22 9).pending "a"
          = some { record := dupRecord, waiter := 9, timer := sampleState.nextToken }
      ∧ (sampleEntry.timer, "a", sampleEntry.waiter)
          ∈ (ExecApprovalManager.waitForDecision sampleState dupRecord 22 9).timers
      ∧ (∀ d rb now,
          (ExecApprovalManager.resolve
            (ExecApprovalManager.waitForDecision sampleState dupRecord 22 9) "a" d rb now).2 = true
          ∧ (ExecApprovalManager.resolve
              (ExecApprovalManager.waitForDecision sampleState dupRecord 22 9) "a" d rb now).1.resumed
            = sampleState.resumed ++ [(9, some d)])
      ∧ (ExecApprovalManager.fire
          (ExecApprovalManager.waitForDecision sampleState dupRecord 22 9)
          sampleEntry.timer).resumed
          = sampleState.resumed ++ [(sampleEntry.waiter, none)]) :=
  ⟨by decide,
    c10_waitForDecision_replaces_duplicate sampleState "a" sampleEntry dupRecord 22 9
      (by decide) (by decide) (by decide) (by decide) (by decide)⟩

/-! ### The handler layer (C2, C7, C8, C9)

Modelled from the spec: `createExecApprovalHandlers` (the
request/resolve/pending message handlers) is not among the sources, only its
tests are.  The model below follows the specification: `request` rejects
duplicate pending ids with "approval id already pending" and otherwise
creates the record, broadcasts `exec.approval.requested` with the full
pending-snapshot shape, and suspends on `waitForDecision`; `resolve` calls
the store and on success broadcasts `exec.approval.resolved` and then
responds; `pending` rejects any unrecognized parameter key and otherwise
responds with the `listPending` view.  Promise resumptions (the suspended
`request` call completing) run as microtasks after the synchronous handler
body, which yields the finalize-then-broadcast-then-respond order of the
spec. -/

/-- Observable gateway events, in emission order: broadcasts and responses. -/
inductive GEvent where
  | requestedBroadcast (item : ExecApprovalPendingItem)
  | resolvedBroadcast (id : String) (decision : ExecApprovalDecision)
      (resolvedBy : Option String)
  | requestOk (reqId : String) (id : String) (decision : Option ExecApprovalDecision)
  | requestErr (reqId : String) (message : String)
  | resolveOk (reqId : String)
  | resolveErr (reqId : String) (message : String)
  | pendingOk (reqId : String) (nowMs : Int) (items : List ExecApprovalPendingItem)
  | pendingErr (reqId : String) (message : String)

deriving instance DecidableEq, Repr for GEvent

/-- Modelled from the spec: the parameters of `exec.approval.request`. -/
structure RequestParams where
  id : Option String := none
  command : String
  cwd : Option String := none
  host : Option String := none
  security : Option String := none
  ask : Option String := none
  agentId : Option String := none
  resolvedPath : Option String := none
  sessionKey : Option String := none
  timeoutMs : Int

deriving instance DecidableEq, Repr for RequestParams

/-- The `ExecApprovalRequestPayload` carried by a request. -/
def RequestParams.payload (p : RequestParams) : ExecApprovalRequestPayload :=
  { command := p.command, cwd := p.cwd, host := p.host, security := p.security,
    ask := p.ask, agentId := p.agentId, resolvedPath := p.resolvedPath,
    sessionKey := p.sessionKey }

/-- Modelled from the spec: the world of one gateway: the store, the
registry of suspended `request` calls (waiter id, request id, record id),
and the trace of emitted events. -/
structure World where
  store : MgrState
  waiters : List (Nat × String × String)
  trace : List GEvent
  nextWaiter : Nat

deriving instance DecidableEq, Repr for World

/-- Drain the microtask queue: each waiter resumption recorded by the store
becomes the completion of the corresponding suspended `request` call
(response `{id, decision}`), and the waiter is deregistered. -/
def drain (w : World) : World :=
  { store := { w.store with resumed := [] }
    waiters := w.waiters.filter
      (fun q => !(w.store.resumed.any (fun r => r.1 == q.1)))
    trace := w.trace ++ w.store.resumed.filterMap
      (fun r => (w.waiters.find? (fun q => q.1 == r.1)).map
        (fun q => GEvent.requestOk q.2.1 q.2.2 r.2))
    nextWaiter := w.nextWaiter }

/-- Modelled from the spec: the happy path of the `request` handler: create
the record, broadcast `exec.approval.requested` with the full
pending-snapshot shape of the new record, then suspend on
`waitForDecision`. -/
def handleRequestCreate (w : World) (reqId : String) (p : RequestParams)
    (genId : String) (now : Int) : World :=
  let rs := ExecApprovalManager.create w.store now genId p.payload p.timeoutMs p.id
  { store := ExecApprovalManager.waitForDecision rs.2 rs.1 p.timeoutMs w.nextWaiter
    waiters := w.waiters ++ [(w.nextWaiter, reqId, rs.1.id)]
    trace := w.trace ++ [GEvent.requestedBroadcast
      (ExecApprovalManager.snapshotItem rs.1 now)]
    nextWaiter := w.nextWaiter + 1 }

/-- Modelled from the spec: the `request` handler.  If `params.id` is
supplied and already pending it responds immediately with failure
"approval id already pending" and performs no further action; otherwise it
proceeds to create/broadcast/suspend. -/
def handleRequest (w : World) (reqId : String) (p : RequestParams)
    (genId : String) (now : Int) : World :=
  match p.id with
  | some i =>
    if (mapGet w.store.pending i).isSome then
      { w with trace := w.trace ++ [GEvent.requestErr reqId "approval id already pending"] }
    else
      handleRequestCreate w reqId p genId now
  | none => handleRequestCreate w reqId p genId now

/-- Modelled from the spec: the `resolve` handler: call `Store.resolve`; on
failure respond with failure; on success broadcast `exec.approval.resolved`
`{id, decision, resolvedBy}` and respond with success (the suspended
`request` completion then runs as a microtask). -/
def handleResolve (w : World) (reqId : String) (id : String)
    (decision : ExecApprovalDecision) (resolvedBy : Option String) (now : Int) : World :=
  let r := ExecApprovalManager.resolve w.store id decision resolvedBy now
  if r.2 then
    { w with
      store := r.1
      trace := w.trace ++ [GEvent.resolvedBroadcast id decision resolvedBy,
        GEvent.resolveOk reqId] }
  else
    { w with trace := w.trace ++ [GEvent.resolveErr reqId "unknown approval id"] }

/-- Modelled from the spec: the `pending` handler: any unrecognized
parameter key (the method takes an empty params object, so any extra key)
is rejected with a validation failure naming the method; otherwise it
responds with the `listPending` view at the current clock. -/
def handlePending (w : World) (reqId : String) (extraKeys : List String)
    (now : Int) : World :=
  if extraKeys.isEmpty then
    { w with trace := w.trace ++ [GEvent.pendingOk reqId now
        (ExecApprovalManager.listPending w.store now)] }
  else
    { w with trace := w.trace ++ [GEvent.pendingErr reqId
        "invalid exec.approval.pending params"] }

/-- A top-level gateway command: one handler invocation or one timer expiry. -/
inductive Cmd where
  | request (reqId : String) (p : RequestParams) (genId : String) (now : Int)
  | resolveCmd (reqId : String) (id : String) (decision : ExecApprovalDecision)
      (resolvedBy : Option String) (now : Int)
  | pendingCmd (reqId : String) (extraKeys : List String) (now : Int)
  | fireCmd (token : Nat)

deriving instance DecidableEq, Repr for Cmd

/-- Run one command: the synchronous handler body, then the microtask
queue. -/
def stepCmd (w : World) : Cmd → World
  | .request reqId p genId now => drain (handleRequest w reqId p genId now)
  | .resolveCmd reqId id d rb now => drain (handleResolve w reqId id d rb now)
  | .pendingCmd reqId keys now => drain (handlePending w reqId keys now)
  | .fireCmd t => drain { w with store := ExecApprovalManager.fire w.store t }

/-- Run a command sequence. -/
def runCmds (w : World) (cs : List Cmd) : World :=
  cs.foldl stepCmd w

/-- The freshly started gateway. -/
def initWorld : World :=
  { store := initState, waiters := [], trace := [], nextWaiter := 0 }

theorem drain_of_resumed_nil (w : World) (h : w.store.resumed = []) :
    drain w = w := by
  unfold drain
  rw [h]
  cases w with
  | mk store waiters trace nextWaiter =>
    cases store with
    | mk pending timers resumed nextToken =>
      simp only [MgrState.mk.injEq] at h ⊢
      simp [h]

/-- C2 (handlers modelled from the spec): a `request` whose supplied id is
already pending responds with failure "approval id already pending" and does
nothing else: the store (pending set, every entry, every timer) and the
waiter registry are untouched, and the only emitted event is the failure
response — in particular no `requested` broadcast and no new timer. -/
theorem c2_duplicate_id_rejected (w : World) (reqId : String) (p : RequestParams)
    (genId : String) (now : Int) (i : String) (e : PendingEntry)
    (hid : p.id = some i)
    (hpend : mapGet w.store.pending i = some e)
    (hres : w.store.resumed = []) :
    (stepCmd w (Cmd.request reqId p genId now)).store = w.store
    ∧ (stepCmd w (Cmd.request reqId p genId now)).waiters = w.waiters
    ∧ (stepCmd w (Cmd.request reqId p genId now)).nextWaiter = w.nextWaiter
    ∧ (stepCmd w (Cmd.request reqId p genId now)).trace
        = w.trace ++ [GEvent.requestErr reqId "approval id already pending"] := by
  have heq : stepCmd w (Cmd.request reqId p genId now)
      = { w with trace := w.trace ++ [GEvent.requestErr reqId "approval id already pending"] } := by
    have hcond : (mapGet w.store.pending i).isSome = true := by rw [hpend]; rfl
    show drain (handleRequest w reqId p genId now) = _
    unfold handleRequest
    rw [hid]
    dsimp only
    rw [if_pos hcond]
    exact drain_of_resumed_nil _ hres
  rw [heq]
  exact ⟨rfl, rfl, rfl, rfl⟩

/-- A concrete gateway world with `sampleState` in the store and the waiter
of its pending record registered. -/
def sampleWorld : World :=
  { store := sampleState
    waiters := [(7, "req-1", "a")]
    trace := [GEvent.requestedBroadcast (ExecApprovalManager.snapshotItem sampleRecord 5)]
    nextWaiter := 8 }

/-- The duplicate request used by concrete witnesses. -/
def dupParams : RequestParams :=
  { id := some "a", command := "echo again", timeoutMs := 2000 }

theorem c2_witness :
    dupParams.id = some "a"
    ∧ mapGet sampleWorld.store.pending "a" = some sampleEntry
    ∧ sampleWorld.store.resumed = []
    ∧ ((stepCmd sampleWorld (Cmd.request "req-2" dupParams "uuid-2" 8)).store
        = sampleWorld.store
      ∧ (stepCmd sampleWorld (Cmd.request "req-2" dupParams "uuid-2" 8)).waiters
          = sampleWorld.waiters
      ∧ (stepCmd sampleWorld (Cmd.request "req-2" dupParams "uuid-2" 8)).nextWaiter
          = sampleWorld.nextWaiter
      ∧ (stepCmd sampleWorld (Cmd.request "req-2" dupParams "uuid-2" 8)).trace
          = sampleWorld.trace
            ++ [GEvent.requestErr "req-2" "approval id already pending"]) :=
  ⟨by decide, by decide, by decide,
    c2_duplicate_id_rejected sampleWorld "req-2" dupParams "uuid-2" 8 "a" sampleEntry
      (by decide) (by decide) (by decide)⟩

/-- C9 (handlers modelled from the spec): `pending` called with any
unrecognized parameter key responds with a validation failure whose message,
"invalid exec.approval.pending params", names the method, and mutates
nothing; with the empty params object it responds with
`{nowMs, pending := listPending nowMs}`. -/
theorem c9_pending_params_validation (w : World) (reqId : String)
    (extraKeys : List String) (now : Int)
    (hres : w.store.resumed = []) :
    (extraKeys ≠ [] →
      stepCmd w (Cmd.pendingCmd reqId extraKeys now)
        = { w with trace := w.trace
            ++ [GEvent.pendingErr reqId "invalid exec.approval.pending params"] })
    ∧ (extraKeys = [] →
      stepCmd w (Cmd.pendingCmd reqId extraKeys now)
        = { w with trace := w.trace
            ++ [GEvent.pendingOk reqId now (ExecApprovalManager.listPending w.store now)] }) := by
  constructor
  · intro hk
    show drain (handlePending w reqId extraKeys now) = _
    cases extraKeys with
    | nil => exact absurd rfl hk
    | cons a as => exact drain_of_resumed_nil _ hres
  · intro hk
    subst hk
    exact drain_of_resumed_nil _ hres

theorem c9_witness :
    sampleWorld.store.resumed = []
    ∧ ((["extra"] : List String) ≠ [] →
        stepCmd sampleWorld (Cmd.pendingCmd "req-p" ["extra"] 11)
          = { sampleWorld with trace := sampleWorld.trace
              ++ [GEvent.pendingErr "req-p" "invalid exec.approval.pending params"] })
    ∧ ((["extra"] : List String) = [] →
        stepCmd sampleWorld (Cmd.pendingCmd "req-p" ["extra"] 11)
          = { sampleWorld with trace := sampleWorld.trace
              ++ [GEvent.pendingOk "req-p" 11
                (ExecApprovalManager.listPending sampleWorld.store 11)] }) :=
  ⟨by decide,
    (c9_pending_params_validation sampleWorld "req-p" ["extra"] 11 (by decide)).1,
    (c9_pending_params_validation sampleWorld "req-p" ["extra"] 11 (by decide)).2⟩

/-! ### A successful `resolve` command, characterized -/

theorem find?_waiters_none (l : List (Nat × String × String)) (wt : Nat)
    (h : ∀ q ∈ l, q.1 ≠ wt) : l.find? (fun q => q.1 == wt) = none :=
  List.find?_eq_none.mpr (fun q hq => by simpa using h q hq)

/-- What one `resolve` command does when the id is pending and the suspended
`request` call of its waiter is registered: the store finalizes the entry,
then the `resolved` broadcast and the `resolve` response are emitted, and
finally (as a microtask) the `request` call completes with the decision. -/
theorem stepResolve_success (w : World) (rr rid rq : String) (e : PendingEntry)
    (d : ExecApprovalDecision) (rb : Option String) (now : Int)
    (hres : w.store.resumed = [])
    (hfound : mapGet w.store.pending rid = some e)
    (hfind : w.waiters.find? (fun q => q.1 == e.waiter) = some (e.waiter, rq, rid)) :
    (stepCmd w (Cmd.resolveCmd rr rid d rb now)).trace
      = w.trace ++ [GEvent.resolvedBroadcast rid d rb, GEvent.resolveOk rr,
          GEvent.requestOk rq rid (some d)]
    ∧ (stepCmd w (Cmd.resolveCmd rr rid d rb now)).store.pending
        = mapDelete w.store.pending rid
    ∧ (stepCmd w (Cmd.resolveCmd rr rid d rb now)).store.timers
        = w.store.timers.filter (fun t => t.1 != e.timer)
    ∧ (stepCmd w (Cmd.resolveCmd rr rid d rb now)).store.resumed = []
    ∧ (stepCmd w (Cmd.resolveCmd rr rid d rb now)).store.nextToken = w.store.nextToken
    ∧ (stepCmd w (Cmd.resolveCmd rr rid d rb now)).waiters
        = w.waiters.filter
            (fun q => !([((e.waiter : Nat), (some d : Option ExecApprovalDecision))].any
              (fun r => r.1 == q.1)))
    ∧ (stepCmd w (Cmd.resolveCmd rr rid d rb now)).nextWaiter = w.nextWaiter := by
  have hr := resolve_eq_of_found w.store rid e d rb now hfound
  have hhr : handleResolve w rr rid d rb now
      = { store := { pending := mapDelete w.store.pending rid
                     timers := w.store.timers.filter (fun t => t.1 != e.timer)
                     resumed := [(e.waiter, some d)]
                     nextToken := w.store.nextToken }
          waiters := w.waiters
          trace := w.trace ++ [GEvent.resolvedBroadcast rid d rb, GEvent.resolveOk rr]
          nextWaiter := w.nextWaiter } := by
    unfold handleResolve
    rw [hr, hres]
    rfl
  have hstep : stepCmd w (Cmd.resolveCmd rr rid d rb now)
      = drain (handleResolve w rr rid d rb now) := rfl
  rw [hstep, hhr]
  unfold drain
  refine ⟨?_, rfl, rfl, rfl, rfl, rfl, rfl⟩
  simp only [List.filterMap_cons, List.filterMap_nil, hfind, Option.map_some']
  rw [List.append_assoc]
  rfl

/-! ### C7: resolve issued synchronously against the just-broadcast request -/

/-- C7 (handlers modelled from the spec): a `resolve` reacting to the
`requested` broadcast of the same request is processed after the requester's
registration (the resolve handler is itself asynchronous), so it succeeds:
the trace shows the `requested` broadcast, then the `resolved` broadcast,
the success response to the resolver, and exactly one completion of the
original `request` call carrying the resolved decision; the waiter is
deregistered (so the request cannot complete again) and a later firing of
the record's timeout token is a complete no-op. -/
theorem c7_resolve_during_requested_broadcast
    (w : World) (rq rr : String) (p : RequestParams) (genId : String)
    (now1 now2 : Int) (d : ExecApprovalDecision) (rb : Option String)
    (hres : w.store.resumed = [])
    (hdup : ∀ i, p.id = some i → mapGet w.store.pending i = none)
    (hfreshW : ∀ q ∈ w.waiters, q.1 ≠ w.nextWaiter)
    (hfreshT : ∀ t ∈ w.store.timers, t.1 ≠ w.store.nextToken) :
    (stepCmd (stepCmd w (Cmd.request rq p genId now1))
        (Cmd.resolveCmd rr (resolvedIdOf p.id genId) d rb now2)).trace
      = w.trace ++ [GEvent.requestedBroadcast (ExecApprovalManager.snapshotItem
            { id := resolvedIdOf p.id genId, request := p.payload,
              createdAtMs := now1, expiresAtMs := now1 + p.timeoutMs } now1),
          GEvent.resolvedBroadcast (resolvedIdOf p.id genId) d rb,
          GEvent.resolveOk rr,
          GEvent.requestOk rq (resolvedIdOf p.id genId) (some d)]
    ∧ (stepCmd (stepCmd w (Cmd.request rq p genId now1))
        (Cmd.resolveCmd rr (resolvedIdOf p.id genId) d rb now2)).waiters = w.waiters
    ∧ stepCmd (stepCmd (stepCmd w (Cmd.request rq p genId now1))
          (Cmd.resolveCmd rr (resolvedIdOf p.id genId) d rb now2))
        (Cmd.fireCmd w.store.nextToken)
      = stepCmd (stepCmd w (Cmd.request rq p genId now1))
          (Cmd.resolveCmd rr (resolvedIdOf p.id genId) d rb now2) := by
  have hw1 : stepCmd w (Cmd.request rq p genId now1)
      = handleRequestCreate w rq p genId now1 := by
    have hh : handleRequest w rq p genId now1 = handleRequestCreate w rq p genId now1 := by
      unfold handleRequest
      cases hp : p.id with
      | none => rfl
      | some i =>
        dsimp only
        rw [hdup i hp]
        rfl
    show drain (handleRequest w rq p genId now1) = _
    rw [hh]
    exact drain_of_resumed_nil _ hres
  rw [hw1]
  have hres1 : (handleRequestCreate w rq p genId now1).store.resumed = [] := hres
  have hfound1 : mapGet (handleRequestCreate w rq p genId now1).store.pending
      (resolvedIdOf p.id genId)
      = some { record := { id := resolvedIdOf p.id genId, request := p.payload,
                           createdAtMs := now1, expiresAtMs := now1 + p.timeoutMs }
               waiter := w.nextWaiter, timer := w.store.nextToken } :=
    mapGet_set_self w.store.pending (resolvedIdOf p.id genId) _
  have hfind1 : (handleRequestCreate w rq p genId now1).waiters.find?
      (fun q => q.1 == w.nextWaiter)
      = some (w.nextWaiter, rq, resolvedIdOf p.id genId) := by
    show (w.waiters ++ [(w.nextWaiter, rq, resolvedIdOf p.id genId)]).find?
      (fun q => q.1 == w.nextWaiter) = _
    rw [List.find?_append, find?_waiters_none w.waiters w.nextWaiter hfreshW]
    simp [List.find?]
  obtain ⟨htr, hpend2, htim2, hres2, htok2, hwait2, hnw2⟩ :=
    stepResolve_success (handleRequestCreate w rq p genId now1) rr
      (resolvedIdOf p.id genId) rq
      { record := { id := resolvedIdOf p.id genId, request := p.payload,
                    createdAtMs := now1, expiresAtMs := now1 + p.timeoutMs }
        waiter := w.nextWaiter, timer := w.store.nextToken }
      d rb now2 hres1 hfound1 hfind1
  have hwaiters : (stepCmd (handleRequestCreate w rq p genId now1)
      (Cmd.resolveCmd rr (resolvedIdOf p.id genId) d rb now2)).waiters = w.waiters := by
    rw [hwait2]
    show (w.waiters ++ [(w.nextWaiter, rq, resolvedIdOf p.id genId)]).filter _ = w.waiters
    rw [List.filter_append]
    have h1 : w.waiters.filter
        (fun q => !([((w.nextWaiter : Nat), (some d : Option ExecApprovalDecision))].any
          (fun r => r.1 == q.1))) = w.waiters := by
      apply List.filter_eq_self.mpr
      intro q hq
      have hne := hfreshW q hq
      simp [List.any_cons, List.any_nil]
      exact fun hx => hne hx.symm
    have h2 : ([(w.nextWaiter, rq, resolvedIdOf p.id genId)] :
        List (Nat × String × String)).filter
        (fun q => !([((w.nextWaiter : Nat), (some d : Option ExecApprovalDecision))].any
          (fun r => r.1 == q.1))) = [] := by
      simp [List.filter, List.any_cons, List.any_nil]
    rw [h1, h2, List.append_nil]
  have htimers : (stepCmd (handleRequestCreate w rq p genId now1)
      (Cmd.resolveCmd rr (resolvedIdOf p.id genId) d rb now2)).store.timers
      = w.store.timers := by
    rw [htim2]
    show (w.store.timers ++ [(w.store.nextToken, resolvedIdOf p.id genId,
      w.nextWaiter)]).filter _ = w.store.timers
    rw [List.filter_append]
    have h1 : w.store.timers.filter
        (fun t => t.1 != w.store.nextToken) = w.store.timers := by
      apply List.filter_eq_self.mpr
      intro t ht
      simpa using hfreshT t ht
    have h2 : ([(w.store.nextToken, resolvedIdOf p.id genId, w.nextWaiter)] :
        List (Nat × String × Nat)).filter
        (fun t => t.1 != w.store.nextToken) = [] := by
      simp [List.filter]
    rw [h1, h2, List.append_nil]
  refine ⟨?_, hwaiters, ?_⟩
  · rw [htr]
    show (w.trace ++ [GEvent.requestedBroadcast (ExecApprovalManager.snapshotItem
        { id := resolvedIdOf p.id genId, request := p.payload,
          createdAtMs := now1, expiresAtMs := now1 + p.timeoutMs } now1)]) ++ _ = _
    rw [List.append_assoc]
    rfl
  · have hfire : ExecApprovalManager.fire
        (stepCmd (handleRequestCreate w rq p genId now1)
          (Cmd.resolveCmd rr (resolvedIdOf p.id genId) d rb now2)).store
        w.store.nextToken
        = (stepCmd (handleRequestCreate w rq p genId now1)
            (Cmd.resolveCmd rr (resolvedIdOf p.id genId) d rb now2)).store := by
      apply fire_eq_of_none
      rw [htimers]
      apply List.find?_eq_none.mpr
      intro t ht
      simpa using hfreshT t ht
    show drain _ = _
    rw [hfire]
    exact drain_of_resumed_nil _ hres2


/-- The request used by the C7 witness: explicit fresh id "b". -/
def c7params : RequestParams :=
  { id := some "b", command := "run", timeoutMs := 100 }

theorem c7_witness :
    sampleWorld.store.resumed = []
    ∧ (∀ i, c7params.id = some i → mapGet sampleWorld.store.pending i = none)
    ∧ (∀ q ∈ sampleWorld.waiters, q.1 ≠ sampleWorld.nextWaiter)
    ∧ (∀ t ∈ sampleWorld.store.timers, t.1 ≠ sampleWorld.store.nextToken)
    ∧ ((stepCmd (stepCmd sampleWorld (Cmd.request "req-7" c7params "uuid-7" 50))
          (Cmd.resolveCmd "req-8" (resolvedIdOf c7params.id "uuid-7") "allow-once"
            (some "cli") 60)).trace
        = sampleWorld.trace ++ [GEvent.requestedBroadcast (ExecApprovalManager.snapshotItem
              { id := resolvedIdOf c7params.id "uuid-7", request := c7params.payload,
                createdAtMs := 50, expiresAtMs := 50 + c7params.timeoutMs } 50),
            GEvent.resolvedBroadcast (resolvedIdOf c7params.id "uuid-7") "allow-once"
              (some "cli"),
            GEvent.resolveOk "req-8",
            GEvent.requestOk "req-7" (resolvedIdOf c7params.id "uuid-7")
              (some "allow-once")]
      ∧ (stepCmd (stepCmd sampleWorld (Cmd.request "req-7" c7params "uuid-7" 50))
          (Cmd.resolveCmd "req-8" (resolvedIdOf c7params.id "uuid-7") "allow-once"
            (some "cli") 60)).waiters = sampleWorld.waiters
      ∧ stepCmd (stepCmd (stepCmd sampleWorld (Cmd.request "req-7" c7params "uuid-7" 50))
            (Cmd.resolveCmd "req-8" (resolvedIdOf c7params.id "uuid-7") "allow-once"
              (some "cli") 60))
          (Cmd.fireCmd sampleWorld.store.nextToken)
        = stepCmd (stepCmd sampleWorld (Cmd.request "req-7" c7params "uuid-7" 50))
            (Cmd.resolveCmd "req-8" (resolvedIdOf c7params.id "uuid-7") "allow-once"
              (some "cli") 60)) :=
  ⟨by decide,
    fun i hi => by
      have h2 : i = "b" := by
        have h3 := hi
        simp only [c7params, Option.some.injEq] at h3
        exact h3.symm
      subst h2
      decide,
    by decide, by decide,
    c7_resolve_during_requested_broadcast sampleWorld "req-7" "req-8" c7params "uuid-7"
      50 60 "allow-once" (some "cli") (by decide)
      (fun i hi => by
        have h2 : i = "b" := by
          have h3 := hi
          simp only [c7params, Option.some.injEq] at h3
          exact h3.symm
        subst h2
        decide)
      (by decide) (by decide)⟩

/-! ### C8: `requested` precedes `resolved`, and `resolved` precedes the
`request` response -/

/-- Is this event the `requested` broadcast for the given id? -/
def isReqFor (id : String) : GEvent → Bool
  | .requestedBroadcast item => item.id == id
  | _ => false

/-- Has a `requested` broadcast for `id` been emitted in this trace? -/
def seenReq (t : List GEvent) (id : String) : Bool :=
  t.any (isReqFor id)

/-- Scan a trace left to right: every `resolved` broadcast for `id` must be
preceded by a `requested` broadcast for `id` (`seen` carries whether one was
already scanned). -/
def orderGo (id : String) : List GEvent → Bool → Bool
  | [], _ => true
  | ev :: rest, seen =>
    match ev with
    | .requestedBroadcast item => orderGo id rest (seen || (item.id == id))
    | .resolvedBroadcast i _ _ => ((i != id) || seen) && orderGo id rest seen
    | _ => orderGo id rest seen

/-- The `requested`-before-`resolved` discipline for one id over a trace. -/
def respectsOrder (t : List GEvent) (id : String) : Bool :=
  orderGo id t false

/-- Events that are neither `requested` nor `resolved` broadcasts. -/
def neutralEv : GEvent → Bool
  | .requestedBroadcast _ => false
  | .resolvedBroadcast _ _ _ => false
  | _ => true

theorem seenReq_mono (t ext : List GEvent) (id : String)
    (h : seenReq t id = true) : seenReq (t ++ ext) id = true := by
  unfold seenReq at h ⊢
  rw [List.any_append, h]
  rfl

theorem orderGo_append (id : String) (t1 t2 : List GEvent) (seen : Bool) :
    orderGo id (t1 ++ t2) seen
      = (orderGo id t1 seen && orderGo id t2 (seen || seenReq t1 id)) := by
  induction t1 generalizing seen with
  | nil => simp [orderGo, seenReq]
  | cons ev t1 ih =>
    have hseen : seenReq (ev :: t1) id = (isReqFor id ev || seenReq t1 id) := by
      simp [seenReq, List.any_cons]
    cases ev with
    | requestedBroadcast item =>
      rw [List.cons_append]
      show orderGo id (t1 ++ t2) (seen || (item.id == id)) = _
      rw [ih, hseen]
      show _ = ((orderGo id t1 (seen || (item.id == id))
        && orderGo id t2 (seen || ((item.id == id) || seenReq t1 id))) : Bool)
      rw [Bool.or_assoc]
    | resolvedBroadcast i dd rb =>
      rw [List.cons_append]
      show (((i != id) || seen) && orderGo id (t1 ++ t2) seen) = _
      rw [ih, hseen]
      show _ = (((((i != id) || seen) && orderGo id t1 seen)
        && orderGo id t2 (seen || (false || seenReq t1 id))) : Bool)
      rw [Bool.and_assoc, Bool.false_or]
    | requestOk a b c =>
      rw [List.cons_append]
      show orderGo id (t1 ++ t2) seen = _
      rw [ih, hseen]
      show _ = ((orderGo id t1 seen
        && orderGo id t2 (seen || (false || seenReq t1 id))) : Bool)
      rw [Bool.false_or]
    | requestErr a b =>
      rw [List.cons_append]
      show orderGo id (t1 ++ t2) seen = _
      rw [ih, hseen]
      show _ = ((orderGo id t1 seen
        && orderGo id t2 (seen || (false || seenReq t1 id))) : Bool)
      rw [Bool.false_or]
    | resolveOk a =>
      rw [List.cons_append]
      show orderGo id (t1 ++ t2) seen = _
      rw [ih, hseen]
      show _ = ((orderGo id t1 seen
        && orderGo id t2 (seen || (false || seenReq t1 id))) : Bool)
      rw [Bool.false_or]
    | resolveErr a b =>
      rw [List.cons_append]
      show orderGo id (t1 ++ t2) seen = _
      rw [ih, hseen]
      show _ = ((orderGo id t1 seen
        && orderGo id t2 (seen || (false || seenReq t1 id))) : Bool)
      rw [Bool.false_or]
    | pendingOk a b c =>
      rw [List.cons_append]
      show orderGo id (t1 ++ t2) seen = _
      rw [ih, hseen]
      show _ = ((orderGo id t1 seen
        && orderGo id t2 (seen || (false || seenReq t1 id))) : Bool)
      rw [Bool.false_or]
    | pendingErr a b =>
      rw [List.cons_append]
      show orderGo id (t1 ++ t2) seen = _
      rw [ih, hseen]
      show _ = ((orderGo id t1 seen
        && orderGo id t2 (seen || (false || seenReq t1 id))) : Bool)
      rw [Bool.false_or]

theorem orderGo_neutral (id : String) (ext : List GEvent)
    (h : ∀ ev ∈ ext, neutralEv ev = true) : ∀ seen, orderGo id ext seen = true := by
  induction ext with
  | nil => intro seen; rfl
  | cons ev rest ih =>
    intro seen
    cases ev with
    | requestedBroadcast item =>
      exact absurd (h _ (List.mem_cons_self _ _)) (by simp [neutralEv])
    | resolvedBroadcast i dd rb =>
      exact absurd (h _ (List.mem_cons_self _ _)) (by simp [neutralEv])
    | requestOk a b c => exact ih (fun e he => h e (List.mem_cons_of_mem _ he)) seen
    | requestErr a b => exact ih (fun e he => h e (List.mem_cons_of_mem _ he)) seen
    | resolveOk a => exact ih (fun e he => h e (List.mem_cons_of_mem _ he)) seen
    | resolveErr a b => exact ih (fun e he => h e (List.mem_cons_of_mem _ he)) seen
    | pendingOk a b c => exact ih (fun e he => h e (List.mem_cons_of_mem _ he)) seen
    | pendingErr a b => exact ih (fun e he => h e (List.mem_cons_of_mem _ he)) seen

theorem respectsOrder_append_block (t ext : List GEvent)
    (h : ∀ id, respectsOrder t id = true)
    (hgo : ∀ id, orderGo id ext (seenReq t id) = true) :
    ∀ id, respectsOrder (t ++ ext) id = true := by
  intro id
  unfold respectsOrder at h ⊢
  rw [orderGo_append, h id, Bool.true_and, Bool.false_or]
  exact hgo id

theorem neutral_drained (l : List (Nat × Option ExecApprovalDecision))
    (ws : List (Nat × String × String)) :
    ∀ ev ∈ l.filterMap (fun r => (ws.find? (fun q => q.1 == r.1)).map
      (fun q => GEvent.requestOk q.2.1 q.2.2 r.2)), neutralEv ev = true := by
  intro ev hev
  rcases List.mem_filterMap.mp hev with ⟨r, hr, hfr⟩
  cases hf : ws.find? (fun q => q.1 == r.1) with
  | none => rw [hf] at hfr; cases hfr
  | some q =>
    rw [hf] at hfr
    simp only [Option.map_some', Option.some.injEq] at hfr
    rw [← hfr]
    rfl

theorem mem_mapSet_keys (m : List (String × PendingEntry)) (k : String)
    (v : PendingEntry) (q : String × PendingEntry) (hq : q ∈ mapSet m k v) :
    q.1 = k ∨ q ∈ m := by
  unfold mapSet at hq
  by_cases h : m.any (fun p => p.1 == k) = true
  · rw [if_pos h] at hq
    rcases List.mem_map.mp hq with ⟨p, hp, hpe⟩
    by_cases hpk : (p.1 == k) = true
    · rw [if_pos hpk] at hpe
      left
      rw [← hpe]
    · rw [if_neg hpk] at hpe
      right
      rw [← hpe]
      exact hp
  · rw [if_neg h] at hq
    rcases List.mem_append.mp hq with hm | hs
    · right; exact hm
    · left
      have hqe : q = (k, v) := List.mem_singleton.mp hs
      rw [hqe]

/-- The reachable-world invariant: the microtask queue is empty between
commands, every pending id has had its `requested` broadcast emitted, and
the trace respects `requested`-before-`resolved` for every id. -/
def WorldInv (w : World) : Prop :=
  w.store.resumed = []
  ∧ (∀ p ∈ w.store.pending, seenReq w.trace p.1 = true)
  ∧ (∀ id, respectsOrder w.trace id = true)

theorem worldInv_init : WorldInv initWorld :=
  ⟨rfl, fun p hp => absurd hp (List.not_mem_nil p), fun id => rfl⟩

theorem worldInv_neutral_step (w : World) (ext : List GEvent)
    (hres : w.store.resumed = [])
    (hpend : ∀ p ∈ w.store.pending, seenReq w.trace p.1 = true)
    (hord : ∀ id, respectsOrder w.trace id = true)
    (hne : ∀ ev ∈ ext, neutralEv ev = true) :
    WorldInv (drain { w with trace := w.trace ++ ext }) := by
  rw [drain_of_resumed_nil { w with trace := w.trace ++ ext } hres]
  exact ⟨hres, fun q hq => seenReq_mono _ _ _ (hpend q hq),
    respectsOrder_append_block w.trace ext hord
      (fun id => orderGo_neutral id ext hne _)⟩

theorem worldInv_create (w : World) (reqId : String) (p : RequestParams)
    (genId : String) (now : Int) (h : WorldInv w) :
    WorldInv (drain (handleRequestCreate w reqId p genId now)) := by
  obtain ⟨hres, hpend, hord⟩ := h
  rw [drain_of_resumed_nil (handleRequestCreate w reqId p genId now) hres]
  refine ⟨hres, ?_, ?_⟩
  · intro q hq
    rcases mem_mapSet_keys w.store.pending _ _ q hq with hk | hmem
    · rw [hk]
      show seenReq (w.trace ++ [GEvent.requestedBroadcast
          (ExecApprovalManager.snapshotItem
            (ExecApprovalManager.create w.store now genId p.payload
              p.timeoutMs p.id).1 now)])
        (ExecApprovalManager.create w.store now genId p.payload
          p.timeoutMs p.id).1.id = true
      unfold seenReq
      rw [List.any_append]
      have h2 : ([GEvent.requestedBroadcast (ExecApprovalManager.snapshotItem
          (ExecApprovalManager.create w.store now genId p.payload p.timeoutMs p.id).1
          now)].any (isReqFor (ExecApprovalManager.create w.store now genId
            p.payload p.timeoutMs p.id).1.id)) = true := by
        simp [isReqFor, ExecApprovalManager.snapshotItem]
      rw [h2]
      simp
    · exact seenReq_mono _ _ _ (hpend q hmem)
  · exact respectsOrder_append_block w.trace _ hord (fun id => rfl)

theorem worldInv_step (w : World) (c : Cmd) (h : WorldInv w) :
    WorldInv (stepCmd w c) := by
  obtain ⟨hres, hpend, hord⟩ := h
  cases c with
  | request reqId p genId now =>
    show WorldInv (drain (handleRequest w reqId p genId now))
    unfold handleRequest
    cases hp : p.id with
    | some i =>
      dsimp only
      by_cases hdupc : (mapGet w.store.pending i).isSome = true
      · rw [if_pos hdupc]
        exact worldInv_neutral_step w
          [GEvent.requestErr reqId "approval id already pending"] hres hpend hord
          (fun ev hev => by rw [List.mem_singleton.mp hev]; rfl)
      · rw [if_neg hdupc]
        exact worldInv_create w reqId p genId now ⟨hres, hpend, hord⟩
    | none => exact worldInv_create w reqId p genId now ⟨hres, hpend, hord⟩
  | resolveCmd rr id0 d rb now =>
    show WorldInv (drain (handleResolve w rr id0 d rb now))
    cases hr : mapGet w.store.pending id0 with
    | none =>
      have hh : handleResolve w rr id0 d rb now
          = { w with trace := w.trace ++ [GEvent.resolveErr rr "unknown approval id"] } := by
        unfold handleResolve
        rw [c4_resolve_not_pending_noop w.store id0 d rb now hr]
        rfl
      rw [hh]
      exact worldInv_neutral_step w [GEvent.resolveErr rr "unknown approval id"]
        hres hpend hord (fun ev hev => by rw [List.mem_singleton.mp hev]; rfl)
    | some e =>
      have hseen : seenReq w.trace id0 = true := by
        rcases mapGet_some_elim w.store.pending id0 e hr with ⟨q, hq, hqk, _⟩
        rw [← hqk]
        exact hpend q hq
      have hh : handleResolve w rr id0 d rb now
          = { store := { pending := mapDelete w.store.pending id0
                         timers := w.store.timers.filter (fun t => t.1 != e.timer)
                         resumed := [(e.waiter, some d)]
                         nextToken := w.store.nextToken }
              waiters := w.waiters
              trace := w.trace ++ [GEvent.resolvedBroadcast id0 d rb, GEvent.resolveOk rr]
              nextWaiter := w.nextWaiter } := by
        unfold handleResolve
        rw [resolve_eq_of_found w.store id0 e d rb now hr, hres]
        rfl
      rw [hh]
      refine ⟨rfl, ?_, ?_⟩
      · intro q hq
        have hq2 : q ∈ w.store.pending := List.mem_of_mem_filter hq
        exact seenReq_mono _ _ _ (seenReq_mono _ _ _ (hpend q hq2))
      · apply respectsOrder_append_block
          (w.trace ++ [GEvent.resolvedBroadcast id0 d rb, GEvent.resolveOk rr])
        · apply respectsOrder_append_block w.trace _ hord
          intro id
          by_cases hid : id0 = id
          · subst hid
            simp [orderGo, hseen]
          · simp [orderGo, hid]
        · intro id
          exact orderGo_neutral id _ (neutral_drained _ _) _
  | pendingCmd reqId keys now =>
    show WorldInv (drain (handlePending w reqId keys now))
    cases keys with
    | nil =>
      exact worldInv_neutral_step w
        [GEvent.pendingOk reqId now (ExecApprovalManager.listPending w.store now)]
        hres hpend hord (fun ev hev => by rw [List.mem_singleton.mp hev]; rfl)
    | cons a as =>
      exact worldInv_neutral_step w
        [GEvent.pendingErr reqId "invalid exec.approval.pending params"]
        hres hpend hord (fun ev hev => by rw [List.mem_singleton.mp hev]; rfl)
  | fireCmd tok =>
    show WorldInv (drain { w with store := ExecApprovalManager.fire w.store tok })
    cases hf : w.store.timers.find? (fun u => u.1 == tok) with
    | none =>
      rw [fire_eq_of_none w.store tok hf]
      rw [drain_of_resumed_nil { w with store := w.store } hres]
      exact ⟨hres, hpend, hord⟩
    | some t =>
      rw [fire_eq_of_found w.store tok t hf]
      refine ⟨rfl, ?_, ?_⟩
      · intro q hq
        have hq2 : q ∈ w.store.pending := List.mem_of_mem_filter hq
        exact seenReq_mono _ _ _ (hpend q hq2)
      · apply respectsOrder_append_block w.trace _ hord
        intro id
        exact orderGo_neutral id _ (neutral_drained _ _) _

theorem worldInv_runCmds (w : World) (cs : List Cmd) (h : WorldInv w) :
    WorldInv (runCmds w cs) := by
  induction cs generalizing w with
  | nil => exact h
  | cons c cs ih => exact ih (stepCmd w c) (worldInv_step w c h)

/-- C8 (handlers modelled from the spec): in every execution of the gateway
from its initial state, a `resolved` broadcast for an id is always preceded
by the `requested` broadcast for that id; and resolving a pending id with
decision `d` emits the `resolved` broadcast before the original `request`
call's response, which carries exactly that id and decision. -/
theorem c8_requested_precedes_resolved (cmds : List Cmd) (id : String)
    (w : World) (rq rr rid : String) (e : PendingEntry) (d : ExecApprovalDecision)
    (rb : Option String) (now : Int)
    (hres : w.store.resumed = [])
    (hfound : mapGet w.store.pending rid = some e)
    (hfind : w.waiters.find? (fun q => q.1 == e.waiter) = some (e.waiter, rq, rid)) :
    respectsOrder (runCmds initWorld cmds).trace id = true
    ∧ (stepCmd w (Cmd.resolveCmd rr rid d rb now)).trace
        = w.trace ++ [GEvent.resolvedBroadcast rid d rb, GEvent.resolveOk rr,
            GEvent.requestOk rq rid (some d)] :=
  ⟨(worldInv_runCmds initWorld cmds worldInv_init).2.2 id,
    (stepResolve_success w rr rid rq e d rb now hres hfound hfind).1⟩

theorem c8_witness :
    sampleWorld.store.resumed = []
    ∧ mapGet sampleWorld.store.pending "a" = some sampleEntry
    ∧ sampleWorld.waiters.find? (fun q => q.1 == sampleEntry.waiter)
        = some (sampleEntry.waiter, "req-1", "a")
    ∧ (respectsOrder (runCmds initWorld
          [Cmd.request "r1" c7params "uuid-9" 3,
           Cmd.resolveCmd "r2" "b" "deny" none 4]).trace "b" = true
      ∧ (stepCmd sampleWorld (Cmd.resolveCmd "req-9" "a" "deny" none 12)).trace
          = sampleWorld.trace ++ [GEvent.resolvedBroadcast "a" "deny" none,
              GEvent.resolveOk "req-9",
              GEvent.requestOk "req-1" "a" (some "deny")]) :=
  ⟨by decide, by decide, by decide,
    c8_requested_precedes_resolved
      [Cmd.request "r1" c7params "uuid-9" 3, Cmd.resolveCmd "r2" "b" "deny" none 4]
      "b" sampleWorld "req-1" "req-9" "a" sampleEntry "deny" none 12
      (by decide) (by decide) (by decide)⟩

end OpenClaw
